import Mathlib

/-!
Shallow embedding of the fire-resistance calculation core of the
fire_column_app repository (files app/utils.py and app/calculations.py),
together with theorems settling the frozen claims about it.

Temperatures and time offsets are modelled as rationals, geometry and the
accumulated capacity and stiffness values as real numbers (the source works
with floating point numbers; pi and square roots force the real field).
Dictionary fields that may be missing or non numeric are modelled as Option
values.
-/

namespace FireColumn

/-- One linear-interpolation step of the table scan loop shared by the
degradation-coefficient functions (utils.py lines 231-237 and 279-285) and
the reduction-coefficient function (calculations.py lines 342-346): walk the
table carrying the previous row, and on the first interval containing x
return the linear interpolation; when the list is exhausted return the value
of the carried (last) row, as the final fallback return does in the source. -/
def scanInterp {α : Type} [LinearOrderedField α]
    [DecidableRel ((· ≤ ·) : α → α → Prop)] (x : α) :
    α × α → List (α × α) → α
  | p, [] => p.2
  | p, q :: rest =>
      if p.1 ≤ x ∧ x ≤ q.1 then p.2 + (q.2 - p.2) * (x - p.1) / (q.1 - p.1)
      else scanInterp x q rest

/-- Full table lookup as written in steel_working_condition_coeff,
concrete_working_condition_coeff and get_reduction_coeff: clamp below the
first breakpoint, clamp at or above the last breakpoint, otherwise scan the
intervals.  The empty-table case returns 0; it is never reached because every
table in the source is ground and nonempty. -/
def tableLookup {α : Type} [LinearOrderedField α]
    [DecidableRel ((· ≤ ·) : α → α → Prop)] (x : α) :
    List (α × α) → α
  | [] => 0
  | c :: rest =>
      if x ≤ c.1 then c.2
      else if (rest.getLastD c).1 ≤ x then (rest.getLastD c).2
      else scanInterp x c rest

/-- Tail of the table of utils.py lines 208-222 (steel working condition
coefficient), after its first row (20, 1.00). -/
def steelTableTail : List (ℚ × ℚ) :=
  [(100, 1.00), (200, 0.90), (300, 0.80), (400, 0.70),
   (500, 0.60), (600, 0.31), (700, 0.13), (800, 0.09), (900, 0.0675),
   (1000, 0.0450), (1100, 0.0225), (1200, 0.0)]

/-- The full table of utils.py lines 208-222. -/
def steelTable : List (ℚ × ℚ) := (20, 1.00) :: steelTableTail

/-- utils.py lines 191-237: steel working condition coefficient by
temperature, linear interpolation over steelTable with clamping. -/
def steel_working_condition_coeff (temp_celsius : ℚ) : ℚ :=
  tableLookup temp_celsius steelTable

/-- Tail of the table of utils.py lines 256-270 (concrete working condition
coefficient), after its first row (20, 1.00). -/
def concreteTableTail : List (ℚ × ℚ) :=
  [(100, 1.00), (200, 0.95), (300, 0.85), (400, 0.75),
   (500, 0.60), (600, 0.45), (700, 0.30), (800, 0.15), (900, 0.08),
   (1000, 0.04), (1100, 0.01), (1200, 0.0)]

/-- The full table of utils.py lines 256-270. -/
def concreteTable : List (ℚ × ℚ) := (20, 1.00) :: concreteTableTail

/-- utils.py lines 240-285: concrete working condition coefficient by
temperature, linear interpolation over concreteTable with clamping. -/
def concrete_working_condition_coeff (temp_celsius : ℚ) : ℚ :=
  tableLookup temp_celsius concreteTable

/-- Scan loop of concrete_strain_by_temp (utils.py lines 325-333): on the
first table row whose breakpoint is at or above x, return none if that row
holds no value, else interpolate from the carried previous row; if the list
is exhausted return none (the final return of the source).  A row holding no
value is never carried past in the source table, where none appears only in
the last row; in that position this definition also returns none, matching
the loop falling off the end. -/
def strainScan (x : ℚ) : ℚ → ℚ → List (ℚ × Option ℚ) → Option ℚ
  | _, _, [] => none
  | t0, e0, (t1, oe1) :: rest =>
      if x ≤ t1 then
        match oe1 with
        | none => none
        | some e1 => some (e0 + (e1 - e0) * (x - t0) / (t1 - t0))
      else
        match oe1 with
        | some e1 => strainScan x t1 e1 rest
        | none => none

/-- Tail of the strain table of utils.py lines 304-318 (all rows after
the first row (20, 2.5)). -/
def strainTableTail : List (ℚ × Option ℚ) :=
  [(100, some 4.0), (200, some 5.5), (300, some 7.0), (400, some 10.0),
   (500, some 15.0), (600, some 25.0), (700, some 25.0), (800, some 25.0),
   (900, some 25.0), (1000, some 25.0), (1100, some 25.0), (1200, none)]

/-- The full strain table of utils.py lines 304-318. -/
def strainTable : List (ℚ × Option ℚ) := (20, some 2.5) :: strainTableTail

/-- utils.py lines 288-333: concrete ultimate strain by temperature.
Below 20 return 2.5; otherwise scan the table; none models the source
returning None (concrete destroyed). -/
def concrete_strain_by_temp (temp_celsius : ℚ) : Option ℚ :=
  if temp_celsius < 20 then some 2.5
  else strainScan temp_celsius 20 2.5 strainTableTail

/-- Tail of the table of calculations.py lines 317-334 (buckling reduction
coefficient by slenderness), after its first row (0.0, 1.0). -/
noncomputable def phiTableTail : List (ℝ × ℝ) :=
  [(0.2, 1.0), (0.4, 0.9), (0.6, 0.785), (0.8, 0.6),
   (1.0, 0.54), (1.2, 0.43), (1.4, 0.36), (1.6, 0.285), (1.8, 0.24),
   (2.0, 0.2), (2.2, 0.17), (2.4, 0.15), (2.6, 0.125), (2.8, 0.11),
   (3.0, 0.1)]

/-- The full table of calculations.py lines 317-334. -/
noncomputable def phiTable : List (ℝ × ℝ) := (0.0, 1.0) :: phiTableTail

/-- calculations.py lines 305-348: buckling reduction coefficient by
slenderness, linear interpolation over phiTable with clamping. -/
noncomputable def get_reduction_coeff (slenderness : ℝ) : ℝ :=
  tableLookup slenderness phiTable

/-- One thermal data record: the time offset and the nine temperature
channels, each a rational when present and numeric, none when the dictionary
field is missing or not numeric. -/
structure ThermalRecord where
  time_minutes : Option ℚ
  temp_t1 : Option ℚ
  temp_t2 : Option ℚ
  temp_t3 : Option ℚ
  temp_t4 : Option ℚ
  temp_t5 : Option ℚ
  temp_t6 : Option ℚ
  temp_t7 : Option ℚ
  temp_t8 : Option ℚ
  temp_t9 : Option ℚ
deriving DecidableEq

/-- The filter of calculations.py lines 44-48: the record has a numeric time
field and that time is at most the requested exposure time. -/
def suitableTime (t : ℚ) (r : ThermalRecord) : Bool :=
  match r.time_minutes with
  | some m => decide (m ≤ t)
  | none => false

/-- Key used by the max call of calculations.py line 52: the time field with
default -1 (the default is never used on the filtered list, whose members all
carry a numeric time). -/
def timeKeyMax (r : ThermalRecord) : ℚ := r.time_minutes.getD (-1)

/-- Key used by the min call of calculations.py line 60: the time field with
default positive infinity, modelled in WithTop. -/
def timeKeyInf (r : ThermalRecord) : WithTop ℚ :=
  match r.time_minutes with
  | some m => (m : WithTop ℚ)
  | none => ⊤

/-- The fold hidden in the builtin max and min calls of the source: walk the
list keeping the current best, replacing it exactly when the candidate is
strictly better, so the first element among ties is kept. -/
def pyBest {β : Type} (better : β → β → Bool) : β → List β → β
  | best, [] => best
  | best, x :: xs => pyBest better (if better x best then x else best) xs

/-- Body shared by get_thermal_record_for_time (calculations.py lines 44-62)
and the inline copy in discretize_concrete_core_into_rings (utils.py lines
96-112), both reached only on a nonempty series: take the record with the
largest numeric time at most t, else the record with the smallest numeric
time, else none. -/
def resolveNonempty (thermal_data : List ThermalRecord) (t : ℚ) :
    Option ThermalRecord :=
  match thermal_data.filter (suitableTime t) with
  | s :: ss =>
      some (pyBest (fun x b => decide (timeKeyMax b < timeKeyMax x)) s ss)
  | [] =>
      match thermal_data.filter (fun r => r.time_minutes.isSome) with
      | a :: rest =>
          some (pyBest (fun x b => decide (timeKeyInf x < timeKeyInf b)) a rest)
      | [] => none

/-- calculations.py lines 23-62: resolve the thermal record applicable at a
given exposure time. -/
def get_thermal_record_for_time (thermal_data : List ThermalRecord)
    (fire_exposure_time_sec : ℚ) : Option ThermalRecord :=
  if thermal_data = [] then none
  else resolveNonempty thermal_data fire_exposure_time_sec

/-- config.py line 26: normative rebar concrete cover in mm. -/
noncomputable def MATERIAL_CONSTANTS_REBAR_COVER_MM : ℝ := 35.0

/-- The ring index to temperature channel dictionary of utils.py lines
149-160, combined with the channel read: ring 0 reads temp_t2, ring 1 reads
temp_t3, ring 2 reads temp_t5, then temp_t6 to temp_t9; any other index has
no channel. -/
def temperature_mapping (r : ThermalRecord) : ℕ → Option ℚ
  | 0 => r.temp_t2
  | 1 => r.temp_t3
  | 2 => r.temp_t5
  | 3 => r.temp_t6
  | 4 => r.temp_t7
  | 5 => r.temp_t8
  | 6 => r.temp_t9
  | _ => none

/-- The requested thickness of ring i (utils.py lines 127-132): the plan
entry when present and not the fill sentinel, else the whole remaining
radius. -/
def thicknessAt (ring_thicknesses : List (Option ℝ)) (i : ℕ) (outer : ℝ) : ℝ :=
  match ring_thicknesses.get? i with
  | some (some v) => v
  | _ => outer

/-- One concrete ring descriptor as built by utils.py lines 162-167. -/
structure ConcreteRing where
  outer_radius_mm : ℝ
  inner_radius_mm : ℝ
  area_mm2 : ℝ
  temperature_celsius : Option ℚ

/-- The ring construction loop of utils.py lines 126-170: count rings still
to build, current ring index, current outer radius.  The requested thickness
is the plan entry when present and not the fill sentinel, else the whole
remaining radius; the inner radius never goes below zero; the area is pi
times the difference of squares, or zero for a degenerate ring. -/
noncomputable def buildRings (thermal_record : Option ThermalRecord)
    (ring_thicknesses : List (Option ℝ)) :
    ℕ → ℕ → ℝ → List ConcreteRing
  | 0, _, _ => []
  | n + 1, i, outer =>
      let inner : ℝ := max 0 (outer - thicknessAt ring_thicknesses i outer)
      let area : ℝ :=
        if inner < outer then Real.pi * (outer ^ 2 - inner ^ 2) else 0
      let temp : Option ℚ :=
        match thermal_record with
        | none => none
        | some r => temperature_mapping r i
      ⟨outer, inner, area, temp⟩ :: buildRings thermal_record ring_thicknesses n (i + 1) inner

/-- utils.py lines 119-121: when no plan is given, divide the core radius
uniformly into num_rings thicknesses. -/
noncomputable def effective_ring_thicknesses (core_radius : ℝ) (num_rings : ℕ)
    (ring_thicknesses : Option (List (Option ℝ))) : List (Option ℝ) :=
  match ring_thicknesses with
  | some l => l
  | none => List.replicate num_rings (some (core_radius / (num_rings : ℝ)))

/-- utils.py lines 62-172: discretize the concrete core into rings.  An
empty thermal series short circuits to the empty list (line 92-93); else the
record is resolved exactly as in get_thermal_record_for_time and the loop
runs from the core outer radius. -/
noncomputable def discretize_concrete_core_into_rings (diameter_mm : ℝ)
    (thickness_mm : ℝ) (thermal_data : List ThermalRecord)
    (fire_exposure_time_sec : ℚ) (num_rings : ℕ)
    (ring_thicknesses : Option (List (Option ℝ))) : List ConcreteRing :=
  if thermal_data = [] then []
  else
    buildRings (resolveNonempty thermal_data fire_exposure_time_sec)
      (effective_ring_thicknesses (diameter_mm / 2 - thickness_mm) num_rings
        ring_thicknesses)
      num_rings 0 (diameter_mm / 2 - thickness_mm)

/-- The current outer radius left after the ring construction loop; used to
telescope the sum of ring depths. -/
noncomputable def ringsFinalRadius (ring_thicknesses : List (Option ℝ)) :
    ℕ → ℕ → ℝ → ℝ
  | 0, _, outer => outer
  | n + 1, i, outer =>
      ringsFinalRadius ring_thicknesses n (i + 1)
        (max 0 (outer - thicknessAt ring_thicknesses i outer))

/-- utils.py lines 175-188: area of the steel annulus in mm2. -/
noncomputable def steel_ring_area (diameter_mm thickness_mm : ℝ) : ℝ :=
  Real.pi * ((diameter_mm / 2) ^ 2 - (diameter_mm / 2 - thickness_mm) ^ 2)

/-- Body of the concrete ring loop of calculations.py lines 210-216: the
capacity contribution of one ring in kN (zero when the ring temperature is
absent; the area field is always a number in the embedding, as in the
source, where it is set by the discretizer on every ring). -/
noncomputable def ringCapacityContrib (concrete_strength_mpa : ℝ)
    (ring : ConcreteRing) : ℝ :=
  match ring.temperature_celsius with
  | none => 0
  | some temp =>
      ring.area_mm2 / 1e6 *
        ((concrete_working_condition_coeff temp : ℝ) * concrete_strength_mpa) * 1e3

/-- Body of the concrete ring loop of calculations.py lines 109-121: the
stiffness contribution of one ring in kN m2 (zero when the temperature is
absent or the strain is undefined or not positive). -/
noncomputable def ringStiffnessContrib (concrete_strength_mpa : ℝ)
    (ring : ConcreteRing) : ℝ :=
  let I_ring : ℝ :=
    Real.pi / 4 * (ring.outer_radius_mm ^ 4 - ring.inner_radius_mm ^ 4) / 1e12
  match ring.temperature_celsius with
  | none => 0
  | some temp =>
      match concrete_strain_by_temp temp with
      | none => 0
      | some strain =>
          if 0 < strain then
            I_ring *
              (((concrete_working_condition_coeff temp : ℝ) * concrete_strength_mpa) /
                ((strain : ℝ) * 1e-3)) * 1e3
          else 0

/-- calculations.py lines 124-134: stiffness of the steel annulus, zero when
the resolved record is absent or its first channel is absent. -/
noncomputable def steelStiffnessTerm (diameter_mm thickness_mm
    steel_elastic_modulus_mpa : ℝ) (thermal_record : Option ThermalRecord) : ℝ :=
  match thermal_record with
  | none => 0
  | some r =>
      match r.temp_t1 with
      | none => 0
      | some temp =>
          Real.pi / 4 * ((diameter_mm / 2) ^ 4 - (diameter_mm / 2 - thickness_mm) ^ 4) / 1e12 *
            (steel_elastic_modulus_mpa * (steel_working_condition_coeff temp : ℝ)) * 1e3

/-- calculations.py lines 136-161: stiffness of the reinforcement, using the
eight bar closed form regardless of the configured bar count. -/
noncomputable def rebarStiffnessTerm (diameter_mm thickness_mm
    steel_elastic_modulus_mpa rebar_diameter_mm : ℝ) (use_reinforcement : Bool)
    (thermal_record : Option ThermalRecord) : ℝ :=
  if use_reinforcement then
    match thermal_record with
    | none => 0
    | some r =>
        match r.temp_t4 with
        | none => 0
        | some temp =>
            let rebar_distance_mm : ℝ :=
              diameter_mm / 2 - thickness_mm - MATERIAL_CONSTANTS_REBAR_COVER_MM -
                rebar_diameter_mm / 2
            let I_self_bar : ℝ := Real.pi * rebar_diameter_mm ^ 4 / 64
            let rebar_area_one : ℝ := Real.pi * rebar_diameter_mm ^ 2 / 4
            (8 * I_self_bar + 4 * rebar_area_one * rebar_distance_mm ^ 2) * 1e-12 *
              (steel_elastic_modulus_mpa * (steel_working_condition_coeff temp : ℝ)) * 1e3
  else 0

/-- calculations.py lines 219-226: capacity of the steel annulus. -/
noncomputable def steelCapacityTerm (diameter_mm thickness_mm
    steel_strength_mpa : ℝ) (thermal_record : Option ThermalRecord) : ℝ :=
  match thermal_record with
  | none => 0
  | some r =>
      match r.temp_t1 with
      | none => 0
      | some temp =>
          steel_ring_area diameter_mm thickness_mm / 1e6 *
            ((steel_working_condition_coeff temp : ℝ) * steel_strength_mpa) * 1e3

/-- calculations.py lines 228-236: capacity of the reinforcement; here the
bar count does scale the area. -/
noncomputable def rebarCapacityTerm (rebar_diameter_mm : ℝ) (rebar_count : ℕ)
    (steel_strength_mpa : ℝ) (use_reinforcement : Bool)
    (thermal_record : Option ThermalRecord) : ℝ :=
  if use_reinforcement then
    match thermal_record with
    | none => 0
    | some r =>
        match r.temp_t4 with
        | none => 0
        | some temp =>
            Real.pi * rebar_diameter_mm ^ 2 / 4 * (rebar_count : ℝ) / 1e6 *
              ((steel_working_condition_coeff temp : ℝ) * steel_strength_mpa) * 1e3
  else 0

/-- calculations.py lines 65-163: total flexural stiffness for an exposure
time, as the sum of the concrete ring contributions, the steel annulus term
and the reinforcement term.  The rebar_count argument of the source is kept
in the signature; the source never reads it in this function. -/
noncomputable def calculate_stiffness_for_time (diameter_mm thickness_mm : ℝ)
    (thermal_data : List ThermalRecord) (fire_exposure_time_sec : ℚ)
    (concrete_strength_mpa steel_elastic_modulus_mpa : ℝ)
    (use_reinforcement : Bool) (rebar_diameter_mm : ℝ) (_rebar_count : ℕ)
    (num_rings : ℕ) (ring_thicknesses : Option (List (Option ℝ))) : ℝ :=
  ((discretize_concrete_core_into_rings diameter_mm thickness_mm thermal_data
      fire_exposure_time_sec num_rings ring_thicknesses).map
    (ringStiffnessContrib concrete_strength_mpa)).sum +
  steelStiffnessTerm diameter_mm thickness_mm steel_elastic_modulus_mpa
    (get_thermal_record_for_time thermal_data fire_exposure_time_sec) +
  rebarStiffnessTerm diameter_mm thickness_mm steel_elastic_modulus_mpa
    rebar_diameter_mm use_reinforcement
    (get_thermal_record_for_time thermal_data fire_exposure_time_sec)

/-- calculations.py lines 166-238: total axial capacity (before buckling
reduction) for an exposure time. -/
noncomputable def calculate_capacity_for_time (diameter_mm thickness_mm : ℝ)
    (thermal_data : List ThermalRecord) (fire_exposure_time_sec : ℚ)
    (steel_strength_mpa concrete_strength_mpa : ℝ)
    (use_reinforcement : Bool) (rebar_diameter_mm : ℝ) (rebar_count : ℕ)
    (num_rings : ℕ) (ring_thicknesses : Option (List (Option ℝ))) : ℝ :=
  ((discretize_concrete_core_into_rings diameter_mm thickness_mm thermal_data
      fire_exposure_time_sec num_rings ring_thicknesses).map
    (ringCapacityContrib concrete_strength_mpa)).sum +
  steelCapacityTerm diameter_mm thickness_mm steel_strength_mpa
    (get_thermal_record_for_time thermal_data fire_exposure_time_sec) +
  rebarCapacityTerm rebar_diameter_mm rebar_count steel_strength_mpa
    use_reinforcement
    (get_thermal_record_for_time thermal_data fire_exposure_time_sec)

/-- calculations.py lines 241-302: the full pipeline.  Returns the tuple
(N_final, N_total, N_cr, slenderness, reduction_coeff). -/
noncomputable def calculate_final_capacity (diameter_mm thickness_mm : ℝ)
    (height_m effective_length_coeff : ℝ) (thermal_data : List ThermalRecord)
    (fire_exposure_time_sec : ℚ)
    (steel_strength_mpa steel_elastic_modulus_mpa concrete_strength_mpa : ℝ)
    (use_reinforcement : Bool) (rebar_diameter_mm : ℝ) (rebar_count : ℕ)
    (num_rings : ℕ) (ring_thicknesses : Option (List (Option ℝ))) :
    ℝ × ℝ × ℝ × ℝ × ℝ :=
  let total_stiffness := calculate_stiffness_for_time diameter_mm thickness_mm
    thermal_data fire_exposure_time_sec concrete_strength_mpa
    steel_elastic_modulus_mpa use_reinforcement rebar_diameter_mm rebar_count
    num_rings ring_thicknesses
  let N_total := calculate_capacity_for_time diameter_mm thickness_mm
    thermal_data fire_exposure_time_sec steel_strength_mpa
    concrete_strength_mpa use_reinforcement rebar_diameter_mm rebar_count
    num_rings ring_thicknesses
  let N_cr : ℝ :=
    if 0 < total_stiffness ∧ 0 < height_m ∧ 0 < effective_length_coeff then
      Real.pi ^ 2 * total_stiffness / (height_m * effective_length_coeff) ^ 2
    else 0
  let slenderness : ℝ :=
    if 0 < N_cr then Real.sqrt (N_total / N_cr) else 0
  let reduction_coeff := get_reduction_coeff slenderness
  let N_final := N_total * reduction_coeff
  (N_final, N_total, N_cr, slenderness, reduction_coeff)

/-! ## Generic lemmas about the interpolation scan -/

section InterpLemmas

variable {α : Type} [LinearOrderedField α]
variable [DecidableRel ((· ≤ ·) : α → α → Prop)]

theorem getLastD_snd_le (c : α × α) (L : List (α × α))
    (hv : List.Pairwise (fun p q : α × α => q.2 ≤ p.2) (c :: L)) :
    (L.getLastD c).2 ≤ c.2 := by
  rcases List.mem_cons.mp (List.getLastD_mem_cons L c) with h | h
  · rw [h]
  · exact (List.pairwise_cons.mp hv).1 _ h

theorem getLastD_fst_max (L : List (α × α)) :
    ∀ (c : α × α), List.Pairwise (fun p q : α × α => p.1 < q.1) (c :: L) →
      ∀ p ∈ c :: L, p.1 ≤ (L.getLastD c).1 := by
  induction L with
  | nil =>
      intro c _ p hp
      rcases List.mem_cons.mp hp with h | h
      · rw [h]; exact le_refl _
      · cases h
  | cons q rest ih =>
      intro c hs p hp
      rw [List.getLastD_cons]
      rcases List.mem_cons.mp hp with h | h
      · have hcq : c.1 < q.1 := (List.pairwise_cons.mp hs).1 q (by simp)
        have := ih q hs.of_cons q (by simp)
        rw [h]; exact le_trans hcq.le this
      · exact ih q hs.of_cons p h

theorem interp_le_left (c q : α × α) (x : α) (hcq : c.1 < q.1)
    (hq2 : q.2 ≤ c.2) (hcx : c.1 ≤ x) :
    c.2 + (q.2 - c.2) * (x - c.1) / (q.1 - c.1) ≤ c.2 := by
  have hd : (0 : α) < q.1 - c.1 := by linarith
  have h1 : (q.2 - c.2) * (x - c.1) ≤ 0 :=
    mul_nonpos_of_nonpos_of_nonneg (by linarith) (by linarith)
  have h2 : (q.2 - c.2) * (x - c.1) / (q.1 - c.1) ≤ 0 / (q.1 - c.1) :=
    (div_le_div_right hd).mpr h1
  rw [zero_div] at h2
  linarith

theorem interp_ge_right (c q : α × α) (x : α) (hcq : c.1 < q.1)
    (hq2 : q.2 ≤ c.2) (hcx : c.1 ≤ x) (hxq : x ≤ q.1) :
    q.2 ≤ c.2 + (q.2 - c.2) * (x - c.1) / (q.1 - c.1) := by
  have hd : (0 : α) < q.1 - c.1 := by linarith
  rw [mul_div_assoc]
  have hr0 : 0 ≤ (x - c.1) / (q.1 - c.1) := div_nonneg (by linarith) hd.le
  have hr1 : (x - c.1) / (q.1 - c.1) ≤ 1 := (div_le_one hd).mpr (by linarith)
  nlinarith [mul_nonneg (sub_nonneg.mpr hq2) (sub_nonneg.mpr hr1)]

theorem scanInterp_self (c : α × α) (L : List (α × α))
    (h : ∀ q ∈ L, c.1 < q.1) : scanInterp c.1 c L = c.2 := by
  cases L with
  | nil => rfl
  | cons q rest =>
      have hq : c.1 < q.1 := h q (by simp)
      simp only [scanInterp, if_pos (And.intro (le_refl c.1) hq.le)]
      simp

theorem scanInterp_mem (x : α) :
    ∀ (L : List (α × α)) (c : α × α),
      List.Pairwise (fun p q : α × α => p.1 < q.1) (c :: L) →
      ∀ q ∈ L, scanInterp q.1 c L = q.2 := by
  intro L
  induction L with
  | nil => intro c _ q hq; cases hq
  | cons b rest ih =>
      intro c hs q hq
      rcases List.mem_cons.mp hq with rfl | hq'
      · have hcb : c.1 < q.1 := (List.pairwise_cons.mp hs).1 q (by simp)
        have hne : q.1 - c.1 ≠ 0 := sub_ne_zero.mpr (ne_of_gt hcb)
        simp only [scanInterp, if_pos (And.intro hcb.le (le_refl q.1))]
        rw [mul_div_cancel_right₀ _ hne]
        ring
      · have hbq : b.1 < q.1 := (List.pairwise_cons.mp hs.of_cons).1 q hq'
        have hnot : ¬ (c.1 ≤ q.1 ∧ q.1 ≤ b.1) := fun hcnd =>
          absurd hcnd.2 (not_le.mpr hbq)
        simp only [scanInterp, if_neg hnot]
        exact ih b hs.of_cons q hq'

theorem scanInterp_between (x : α) (a b : α × α) (hax : a.1 < x)
    (hxb : x < b.1) :
    ∀ (L : List (α × α)) (c : α × α) (i : ℕ),
      List.Pairwise (fun p q : α × α => p.1 < q.1) (c :: L) →
      (c :: L).get? i = some a → (c :: L).get? (i + 1) = some b →
      scanInterp x c L = a.2 + (b.2 - a.2) * (x - a.1) / (b.1 - a.1) := by
  intro L
  induction L with
  | nil =>
      intro c i _ _ hb
      rcases i with _ | j <;> simp at hb
  | cons q rest ih =>
      intro c i hs ha hb
      cases i with
      | zero =>
          rw [List.get?_cons_zero] at ha
          rw [List.get?_cons_succ, List.get?_cons_zero] at hb
          injection ha with ha; injection hb with hb
          subst ha; subst hb
          simp only [scanInterp, if_pos (And.intro hax.le hxb.le)]
      | succ j =>
          rw [List.get?_cons_succ] at ha hb
          have hamem : a ∈ q :: rest := List.get?_mem ha
          have hqa : q.1 ≤ a.1 := by
            rcases List.mem_cons.mp hamem with rfl | h'
            · exact le_refl _
            · exact ((List.pairwise_cons.mp hs.of_cons).1 a h').le
          have hnot : ¬ (c.1 ≤ x ∧ x ≤ q.1) := fun hcnd =>
            absurd hcnd.2 (not_le.mpr (lt_of_le_of_lt hqa hax))
          simp only [scanInterp, if_neg hnot]
          exact ih q j hs.of_cons ha hb

theorem scanInterp_le (x : α) :
    ∀ (L : List (α × α)) (c : α × α),
      List.Pairwise (fun p q : α × α => p.1 < q.1) (c :: L) →
      List.Pairwise (fun p q : α × α => q.2 ≤ p.2) (c :: L) →
      c.1 ≤ x → scanInterp x c L ≤ c.2 := by
  intro L
  induction L with
  | nil => intro c _ _ _; simp [scanInterp]
  | cons q rest ih =>
      intro c hs hv hcx
      have hcq : c.1 < q.1 := (List.pairwise_cons.mp hs).1 q (by simp)
      have hq2 : q.2 ≤ c.2 := (List.pairwise_cons.mp hv).1 q (by simp)
      by_cases hcond : c.1 ≤ x ∧ x ≤ q.1
      · simp only [scanInterp, if_pos hcond]
        exact interp_le_left c q x hcq hq2 hcx
      · have hqx : q.1 < x := by
          by_contra hnx
          exact hcond ⟨hcx, not_lt.mp hnx⟩
        simp only [scanInterp, if_neg hcond]
        exact le_trans (ih q hs.of_cons hv.of_cons hqx.le) hq2

theorem scanInterp_ge (x : α) :
    ∀ (L : List (α × α)) (c : α × α),
      List.Pairwise (fun p q : α × α => p.1 < q.1) (c :: L) →
      List.Pairwise (fun p q : α × α => q.2 ≤ p.2) (c :: L) →
      c.1 ≤ x → (L.getLastD c).2 ≤ scanInterp x c L := by
  intro L
  induction L with
  | nil => intro c _ _ _; simp [scanInterp]
  | cons q rest ih =>
      intro c hs hv hcx
      have hcq : c.1 < q.1 := (List.pairwise_cons.mp hs).1 q (by simp)
      have hq2 : q.2 ≤ c.2 := (List.pairwise_cons.mp hv).1 q (by simp)
      rw [List.getLastD_cons]
      by_cases hcond : c.1 ≤ x ∧ x ≤ q.1
      · simp only [scanInterp, if_pos hcond]
        have hlast : ((rest.getLastD q).2 : α) ≤ q.2 := getLastD_snd_le q rest hv.of_cons
        exact le_trans hlast (interp_ge_right c q x hcq hq2 hcond.1 hcond.2)
      · have hqx : q.1 < x := by
          by_contra hnx
          exact hcond ⟨hcx, not_lt.mp hnx⟩
        simp only [scanInterp, if_neg hcond]
        exact ih q hs.of_cons hv.of_cons hqx.le

theorem scanInterp_mono (s1 s2 : α) (h12 : s1 ≤ s2) :
    ∀ (L : List (α × α)) (c : α × α),
      List.Pairwise (fun p q : α × α => p.1 < q.1) (c :: L) →
      List.Pairwise (fun p q : α × α => q.2 ≤ p.2) (c :: L) →
      c.1 ≤ s1 → scanInterp s2 c L ≤ scanInterp s1 c L := by
  intro L
  induction L with
  | nil => intro c _ _ _; simp [scanInterp]
  | cons q rest ih =>
      intro c hs hv hc1
      have hcq : c.1 < q.1 := (List.pairwise_cons.mp hs).1 q (by simp)
      have hq2 : q.2 ≤ c.2 := (List.pairwise_cons.mp hv).1 q (by simp)
      have hd : (0 : α) < q.1 - c.1 := by linarith
      by_cases h2q : s2 ≤ q.1
      · have hcond1 : c.1 ≤ s1 ∧ s1 ≤ q.1 := ⟨hc1, le_trans h12 h2q⟩
        have hcond2 : c.1 ≤ s2 ∧ s2 ≤ q.1 := ⟨le_trans hc1 h12, h2q⟩
        simp only [scanInterp, if_pos hcond1, if_pos hcond2]
        rw [mul_div_assoc, mul_div_assoc]
        have hr : (s1 - c.1) / (q.1 - c.1) ≤ (s2 - c.1) / (q.1 - c.1) :=
          (div_le_div_right hd).mpr (by linarith)
        have := mul_le_mul_of_nonpos_left hr (show q.2 - c.2 ≤ 0 by linarith)
        linarith
      · push_neg at h2q
        by_cases h1q : s1 ≤ q.1
        · have hcond1 : c.1 ≤ s1 ∧ s1 ≤ q.1 := ⟨hc1, h1q⟩
          have hcond2 : ¬ (c.1 ≤ s2 ∧ s2 ≤ q.1) := fun hcnd =>
            absurd hcnd.2 (not_le.mpr h2q)
          simp only [scanInterp, if_pos hcond1, if_neg hcond2]
          have hA : scanInterp s2 q rest ≤ q.2 :=
            scanInterp_le s2 rest q hs.of_cons hv.of_cons h2q.le
          have hB : q.2 ≤ c.2 + (q.2 - c.2) * (s1 - c.1) / (q.1 - c.1) :=
            interp_ge_right c q s1 hcq hq2 hc1 h1q
          linarith
        · push_neg at h1q
          have hcond1 : ¬ (c.1 ≤ s1 ∧ s1 ≤ q.1) := fun hcnd =>
            absurd hcnd.2 (not_le.mpr h1q)
          have hcond2 : ¬ (c.1 ≤ s2 ∧ s2 ≤ q.1) := fun hcnd =>
            absurd hcnd.2 (not_le.mpr h2q)
          simp only [scanInterp, if_neg hcond1, if_neg hcond2]
          exact ih q hs.of_cons hv.of_cons h1q.le

theorem tableLookup_le_first (x : α) (c : α × α) (rest : List (α × α))
    (h : x ≤ c.1) : tableLookup x (c :: rest) = c.2 := by
  simp only [tableLookup, if_pos h]

theorem tableLookup_ge_last (x : α) (c : α × α) (rest : List (α × α))
    (hs : List.Pairwise (fun p q : α × α => p.1 < q.1) (c :: rest))
    (h : (rest.getLastD c).1 ≤ x) :
    tableLookup x (c :: rest) = (rest.getLastD c).2 := by
  rcases List.mem_cons.mp (List.getLastD_mem_cons rest c) with hcase | hcase
  · by_cases hx : x ≤ c.1
    · simp only [tableLookup, if_pos hx, hcase]
    · simp only [tableLookup, if_neg hx, if_pos h]
  · have hcl : c.1 < (rest.getLastD c).1 := (List.pairwise_cons.mp hs).1 _ hcase
    have hx : ¬ x ≤ c.1 := not_le.mpr (lt_of_lt_of_le hcl h)
    simp only [tableLookup, if_neg hx, if_pos h]

theorem tableLookup_between (x : α) (a b : α × α) (hax : a.1 < x)
    (hxb : x < b.1) (c : α × α) (rest : List (α × α))
    (hs : List.Pairwise (fun p q : α × α => p.1 < q.1) (c :: rest))
    (i : ℕ) (ha : (c :: rest).get? i = some a)
    (hb : (c :: rest).get? (i + 1) = some b) :
    tableLookup x (c :: rest) = a.2 + (b.2 - a.2) * (x - a.1) / (b.1 - a.1) := by
  have hamem : a ∈ c :: rest := List.get?_mem ha
  have hbmem : b ∈ c :: rest := List.get?_mem hb
  have hca : c.1 ≤ a.1 := by
    rcases List.mem_cons.mp hamem with rfl | h'
    · exact le_refl _
    · exact ((List.pairwise_cons.mp hs).1 a h').le
  have hbl : b.1 ≤ (rest.getLastD c).1 := getLastD_fst_max rest c hs b hbmem
  have hx1 : ¬ x ≤ c.1 := not_le.mpr (lt_of_le_of_lt hca hax)
  have hx2 : ¬ (rest.getLastD c).1 ≤ x := not_le.mpr (lt_of_lt_of_le hxb hbl)
  simp only [tableLookup, if_neg hx1, if_neg hx2]
  exact scanInterp_between x a b hax hxb rest c i hs ha hb

theorem tableLookup_bounds (x : α) (c : α × α) (rest : List (α × α))
    (hs : List.Pairwise (fun p q : α × α => p.1 < q.1) (c :: rest))
    (hv : List.Pairwise (fun p q : α × α => q.2 ≤ p.2) (c :: rest)) :
    (rest.getLastD c).2 ≤ tableLookup x (c :: rest) ∧
      tableLookup x (c :: rest) ≤ c.2 := by
  by_cases hx1 : x ≤ c.1
  · rw [tableLookup_le_first x c rest hx1]
    exact ⟨getLastD_snd_le c rest hv, le_refl _⟩
  · by_cases hx2 : (rest.getLastD c).1 ≤ x
    · rw [tableLookup_ge_last x c rest hs hx2]
      exact ⟨le_refl _, getLastD_snd_le c rest hv⟩
    · simp only [tableLookup, if_neg hx1, if_neg hx2]
      have hcx : c.1 ≤ x := (not_le.mp hx1).le
      exact ⟨scanInterp_ge x rest c hs hv hcx, scanInterp_le x rest c hs hv hcx⟩

theorem tableLookup_mono (s1 s2 : α) (h12 : s1 ≤ s2) (c : α × α)
    (rest : List (α × α))
    (hs : List.Pairwise (fun p q : α × α => p.1 < q.1) (c :: rest))
    (hv : List.Pairwise (fun p q : α × α => q.2 ≤ p.2) (c :: rest)) :
    tableLookup s2 (c :: rest) ≤ tableLookup s1 (c :: rest) := by
  by_cases h1 : s1 ≤ c.1
  · rw [tableLookup_le_first s1 c rest h1]
    exact (tableLookup_bounds s2 c rest hs hv).2
  · by_cases h2l : (rest.getLastD c).1 ≤ s2
    · rw [tableLookup_ge_last s2 c rest hs h2l]
      exact (tableLookup_bounds s1 c rest hs hv).1
    · have h2 : ¬ s2 ≤ c.1 := fun h => h1 (le_trans h12 h)
      have h1l : ¬ (rest.getLastD c).1 ≤ s1 := fun h => h2l (le_trans h h12)
      simp only [tableLookup, if_neg h1, if_neg h2, if_neg h2l, if_neg h1l]
      exact scanInterp_mono s1 s2 h12 rest c hs hv (not_le.mp h1).le

end InterpLemmas

/-! ## Facts about the concrete tables -/

theorem steelTable_sorted :
    List.Pairwise (fun p q : ℚ × ℚ => p.1 < q.1) steelTable := by
  simp only [steelTable, steelTableTail, List.pairwise_cons,
    List.forall_mem_cons, List.mem_cons]
  norm_num

theorem concreteTable_sorted :
    List.Pairwise (fun p q : ℚ × ℚ => p.1 < q.1) concreteTable := by
  simp only [concreteTable, concreteTableTail, List.pairwise_cons,
    List.forall_mem_cons, List.mem_cons]
  norm_num

set_option maxHeartbeats 1200000 in
theorem phiTable_sorted :
    List.Pairwise (fun p q : ℝ × ℝ => p.1 < q.1) phiTable := by
  simp only [phiTable, phiTableTail, List.pairwise_cons,
    List.forall_mem_cons, List.mem_cons]
  norm_num

set_option maxHeartbeats 1200000 in
theorem phiTable_noninc :
    List.Pairwise (fun p q : ℝ × ℝ => q.2 ≤ p.2) phiTable := by
  simp only [phiTable, phiTableTail, List.pairwise_cons,
    List.forall_mem_cons, List.mem_cons]
  norm_num

theorem pairwise_fst_inj {α : Type} [LinearOrderedField α]
    (l : List (α × α))
    (hs : List.Pairwise (fun p q : α × α => p.1 < q.1) l) :
    ∀ p ∈ l, ∀ q ∈ l, p.1 = q.1 → p = q := by
  induction l with
  | nil => intro p hp; cases hp
  | cons a L ih =>
      intro p hp q hq heq
      rcases List.mem_cons.mp hp with rfl | hp' <;>
        rcases List.mem_cons.mp hq with rfl | hq'
      · rfl
      · exact absurd heq (ne_of_lt ((List.pairwise_cons.mp hs).1 q hq'))
      · exact absurd heq.symm (ne_of_lt ((List.pairwise_cons.mp hs).1 p hp'))
      · exact ih hs.of_cons p hp' q hq' heq

theorem tableLookup_mem {α : Type} [LinearOrderedField α]
    [DecidableRel ((· ≤ ·) : α → α → Prop)] (c : α × α)
    (rest : List (α × α))
    (hs : List.Pairwise (fun p q : α × α => p.1 < q.1) (c :: rest)) :
    ∀ p ∈ c :: rest, tableLookup p.1 (c :: rest) = p.2 := by
  intro p hp
  rcases List.mem_cons.mp hp with rfl | hp'
  · exact tableLookup_le_first p.1 p rest (le_refl _)
  · have hcp : c.1 < p.1 := (List.pairwise_cons.mp hs).1 p hp'
    by_cases hlast : (rest.getLastD c).1 ≤ p.1
    · have hpl : p.1 ≤ (rest.getLastD c).1 := getLastD_fst_max rest c hs p hp
      have hpeq : p = rest.getLastD c :=
        pairwise_fst_inj _ hs p hp (rest.getLastD c)
          (List.getLastD_mem_cons rest c) (le_antisymm hpl hlast)
      rw [tableLookup_ge_last p.1 c rest hs hlast, ← hpeq]
    · simp only [tableLookup, if_neg (not_le.mpr hcp), if_neg hlast]
      exact scanInterp_mem p.1 rest c hs p hp'

/-! ## Lemmas about the strain scan -/

theorem strainScan_between (T : ℚ) (a b : ℚ × Option ℚ) (ea eb : ℚ)
    (hea : a.2 = some ea) (heb : b.2 = some eb) (haT : a.1 < T)
    (hTb : T < b.1) :
    ∀ (L : List (ℚ × Option ℚ)) (t0 e0 : ℚ) (i : ℕ),
      List.Pairwise (fun p q : ℚ × Option ℚ => p.1 < q.1) ((t0, some e0) :: L) →
      (∀ p ∈ L.dropLast, p.2.isSome) →
      ((t0, some e0) :: L).get? i = some a →
      ((t0, some e0) :: L).get? (i + 1) = some b →
      strainScan T t0 e0 L = some (ea + (eb - ea) * (T - a.1) / (b.1 - a.1)) := by
  intro L
  induction L with
  | nil =>
      intro t0 e0 i _ _ _ hb
      rcases i with _ | j <;> simp at hb
  | cons q rest ih =>
      intro t0 e0 i hs hdef ha hb
      obtain ⟨t1, oe1⟩ := q
      cases i with
      | zero =>
          rw [List.get?_cons_zero] at ha
          rw [List.get?_cons_succ, List.get?_cons_zero] at hb
          injection ha with ha'
          injection hb with hb'
          subst ha'
          subst hb'
          have hea' : some e0 = some ea := hea
          injection hea' with hea'
          have hTb' : T ≤ t1 := le_of_lt hTb
          have heb' : oe1 = some eb := heb
          simp only [strainScan, if_pos hTb']
          rw [heb']
          subst hea'
          simp
      | succ j =>
          rw [List.get?_cons_succ] at ha hb
          have hbrest : rest.get? j = some b := by
            rw [List.get?_cons_succ] at hb
            exact hb
          have hrestne : rest ≠ [] := by
            intro h
            rw [h] at hbrest
            simp at hbrest
          obtain ⟨r, rs, rfl⟩ := List.exists_cons_of_ne_nil hrestne
          have hheadmem : ((t1, oe1) : ℚ × Option ℚ) ∈ ((t1, oe1) :: r :: rs).dropLast := by
            rw [List.dropLast_cons₂]
            exact List.mem_cons_self _ _
          have hsome : oe1.isSome := hdef _ hheadmem
          obtain ⟨e1, hoe⟩ := Option.isSome_iff_exists.mp hsome
          rw [hoe] at ha hb hs
          have hamem : a ∈ ((t1, some e1) : ℚ × Option ℚ) :: r :: rs := List.get?_mem ha
          have hta : t1 ≤ a.1 := by
            rcases List.mem_cons.mp hamem with rfl | h'
            · exact le_refl _
            · exact ((List.pairwise_cons.mp hs.of_cons).1 a h').le
          have hnot : ¬ T ≤ t1 := not_le.mpr (lt_of_le_of_lt hta haT)
          simp only [strainScan, if_neg hnot, hoe]
          refine ih t1 e1 j hs.of_cons ?_ ha hb
          intro p hp
          apply hdef
          rw [List.dropLast_cons₂]
          exact List.mem_cons_of_mem _ hp

theorem strainScan_step (T t0 e0 t1 e1 : ℚ) (rest : List (ℚ × Option ℚ))
    (h : ¬ T ≤ t1) :
    strainScan T t0 e0 ((t1, some e1) :: rest) = strainScan T t1 e1 rest := by
  simp only [strainScan, if_neg h]

theorem strainScan_hit (T t0 e0 t1 e1 : ℚ) (rest : List (ℚ × Option ℚ))
    (h : T ≤ t1) :
    strainScan T t0 e0 ((t1, some e1) :: rest) =
      some (e0 + (e1 - e0) * (T - t0) / (t1 - t0)) := by
  simp only [strainScan, if_pos h]

theorem strain_none_above_1100 (T : ℚ) (h : 1100 < T) :
    concrete_strain_by_temp T = none := by
  rw [concrete_strain_by_temp, if_neg (by linarith : ¬ T < 20)]
  simp only [strainTableTail]
  rw [strainScan_step T 20 2.5 100 4.0 _ (by linarith)]
  rw [strainScan_step T 100 4.0 200 5.5 _ (by linarith)]
  rw [strainScan_step T 200 5.5 300 7.0 _ (by linarith)]
  rw [strainScan_step T 300 7.0 400 10.0 _ (by linarith)]
  rw [strainScan_step T 400 10.0 500 15.0 _ (by linarith)]
  rw [strainScan_step T 500 15.0 600 25.0 _ (by linarith)]
  rw [strainScan_step T 600 25.0 700 25.0 _ (by linarith)]
  rw [strainScan_step T 700 25.0 800 25.0 _ (by linarith)]
  rw [strainScan_step T 800 25.0 900 25.0 _ (by linarith)]
  rw [strainScan_step T 900 25.0 1000 25.0 _ (by linarith)]
  rw [strainScan_step T 1000 25.0 1100 25.0 _ (by linarith)]
  simp only [strainScan]
  split_ifs <;> rfl

theorem strain_le_20 (T : ℚ) (h : T ≤ 20) :
    concrete_strain_by_temp T = some 2.5 := by
  by_cases h20 : T < 20
  · rw [concrete_strain_by_temp, if_pos h20]
  · have hT : T = 20 := le_antisymm h (not_lt.mp h20)
    subst hT
    rw [concrete_strain_by_temp, if_neg h20]
    simp only [strainTableTail]
    rw [strainScan_hit 20 20 2.5 100 4.0 _ (by norm_num)]
    norm_num

theorem strainScan_mem :
    ∀ (L : List (ℚ × Option ℚ)) (t0 e0 : ℚ),
      List.Pairwise (fun p q : ℚ × Option ℚ => p.1 < q.1) ((t0, some e0) :: L) →
      (∀ q ∈ L.dropLast, q.2.isSome) →
      ∀ p ∈ L, ∀ ep : ℚ, p.2 = some ep → strainScan p.1 t0 e0 L = some ep := by
  intro L
  induction L with
  | nil => intro t0 e0 _ _ p hp; cases hp
  | cons q rest ih =>
      intro t0 e0 hs hdef p hp ep hep
      obtain ⟨t1, oe1⟩ := q
      rcases List.mem_cons.mp hp with rfl | hp'
      · have hep' : oe1 = some ep := hep
        have ht01 : t0 < t1 := (List.pairwise_cons.mp hs).1 (t1, oe1) (by simp)
        rw [hep']
        rw [strainScan_hit _ t0 e0 t1 ep rest (le_refl _)]
        have hne : t1 - t0 ≠ 0 := sub_ne_zero.mpr (ne_of_gt ht01)
        show some (e0 + (ep - e0) * (t1 - t0) / (t1 - t0)) = some ep
        rw [mul_div_cancel_right₀ _ hne]
        norm_num
      · cases rest with
        | nil => cases hp'
        | cons r rs =>
            have hoe : (((t1, oe1) : ℚ × Option ℚ).2).isSome := by
              apply hdef
              rw [List.dropLast_cons₂]
              exact List.mem_cons_self _ _
            obtain ⟨e1, hoe1⟩ := Option.isSome_iff_exists.mp hoe
            have hoe1' : oe1 = some e1 := hoe1
            rw [hoe1'] at hs
            rw [hoe1']
            have ht1p : t1 < p.1 := (List.pairwise_cons.mp hs.of_cons).1 p hp'
            rw [strainScan_step p.1 t0 e0 t1 e1 (r :: rs) (not_le.mpr ht1p)]
            refine ih t1 e1 hs.of_cons ?_ p hp' ep hep
            intro q hq
            apply hdef
            rw [List.dropLast_cons₂]
            exact List.mem_cons_of_mem _ hq

theorem steelTable_last : steelTableTail.getLastD (20, 1.00) = (1200, 0.0) := rfl

theorem concreteTable_last :
    concreteTableTail.getLastD (20, 1.00) = (1200, 0.0) := rfl

theorem phiTable_last : phiTableTail.getLastD (0.0, 1.0) = (3.0, 0.1) := rfl

theorem strainTable_sorted :
    List.Pairwise (fun p q : ℚ × Option ℚ => p.1 < q.1) strainTable := by
  simp only [strainTable, strainTableTail, List.pairwise_cons,
    List.forall_mem_cons, List.mem_cons]
  norm_num

theorem strainTableTail_defined :
    ∀ q ∈ strainTableTail.dropLast, q.2.isSome := by
  simp [strainTableTail, List.dropLast_cons₂, List.dropLast_single,
    List.forall_mem_cons]

/-! ## Lemmas about the resolver fold -/

theorem pyBest_decomp {β K : Type} [LinearOrder K] (k : β → K)
    (better : β → β → Bool) (hb : ∀ x b, better x b = true ↔ k b < k x) :
    ∀ (l : List β) (a : β),
      ∃ p q, a :: l = p ++ pyBest better a l :: q ∧
        (∀ x ∈ a :: l, k x ≤ k (pyBest better a l)) ∧
        (∀ x ∈ p, k x < k (pyBest better a l)) := by
  intro l
  induction l with
  | nil =>
      intro a
      exact ⟨[], [], by simp [pyBest], by simp [pyBest], by simp⟩
  | cons x xs ih =>
      intro a
      by_cases hcmp : k a < k x
      · have hbx : better x a = true := (hb x a).mpr hcmp
        have hstep : pyBest better a (x :: xs) = pyBest better x xs := by
          simp [pyBest, hbx]
        obtain ⟨p', q', hdec, hub, hlt⟩ := ih x
        refine ⟨a :: p', q', ?_, ?_, ?_⟩
        · rw [hstep, List.cons_append, ← hdec]
        · intro y hy
          rw [hstep]
          rcases List.mem_cons.mp hy with rfl | hy'
          · exact le_trans hcmp.le (hub x (by simp))
          · exact hub y hy'
        · intro y hy
          rw [hstep]
          rcases List.mem_cons.mp hy with rfl | hy'
          · exact lt_of_lt_of_le hcmp (hub x (by simp))
          · exact hlt y hy'
      · have hbx : better x a = false := by
          cases h' : better x a
          · rfl
          · exact absurd ((hb x a).mp h') hcmp
        have hstep : pyBest better a (x :: xs) = pyBest better a xs := by
          simp [pyBest, hbx]
        obtain ⟨p', q', hdec, hub, hlt⟩ := ih a
        cases p' with
        | nil =>
            rw [List.nil_append] at hdec
            injection hdec with h1 h2
            refine ⟨[], x :: xs, ?_, ?_, ?_⟩
            · rw [List.nil_append, hstep, ← h1]
            · intro y hy
              rw [hstep, ← h1]
              rcases List.mem_cons.mp hy with rfl | hy'
              · exact le_refl _
              · rcases List.mem_cons.mp hy' with rfl | hy''
                · exact not_lt.mp hcmp
                · have hthis := hub y (List.mem_cons_of_mem a hy'')
                  rw [← h1] at hthis
                  exact hthis
            · intro y hy
              cases hy
        | cons a' p'' =>
            rw [List.cons_append] at hdec
            injection hdec with h1 h2
            subst h1
            refine ⟨a :: x :: p'', q', ?_, ?_, ?_⟩
            · rw [hstep, List.cons_append, List.cons_append, ← h2]
            · intro y hy
              rw [hstep]
              rcases List.mem_cons.mp hy with rfl | hy'
              · exact hub y (by simp)
              · rcases List.mem_cons.mp hy' with rfl | hy''
                · have hka : k a < k (pyBest better a xs) := hlt a (by simp)
                  exact le_trans (not_lt.mp hcmp) hka.le
                · exact hub y (List.mem_cons_of_mem a hy'')
            · intro y hy
              rw [hstep]
              rcases List.mem_cons.mp hy with rfl | hy'
              · exact hlt _ (List.mem_cons_self _ _)
              · rcases List.mem_cons.mp hy' with rfl | hy''
                · have hka : k a < k (pyBest better a xs) := hlt a (by simp)
                  exact lt_of_le_of_lt (not_lt.mp hcmp) hka
                · exact hlt y (List.mem_cons_of_mem a hy'')

theorem filter_decomp {β : Type} (p : β → Bool) :
    ∀ (l l1 l2 : List β) (x : β), l.filter p = l1 ++ x :: l2 →
      ∃ pre post, l = pre ++ x :: post ∧ pre.filter p = l1 ∧
        post.filter p = l2 := by
  intro l
  induction l with
  | nil =>
      intro l1 l2 x h
      rw [List.filter_nil] at h
      exact absurd h.symm (List.append_ne_nil_of_right_ne_nil l1 (by simp))
  | cons a as ih =>
      intro l1 l2 x h
      by_cases hpa : p a = true
      · rw [List.filter_cons_of_pos hpa] at h
        cases l1 with
        | nil =>
            rw [List.nil_append] at h
            injection h with h1 h2
            subst h1
            exact ⟨[], as, by simp, by simp, by rw [h2]⟩
        | cons b l1' =>
            rw [List.cons_append] at h
            injection h with h1 h2
            subst h1
            obtain ⟨pre, post, hdec, hp1, hp2⟩ := ih l1' l2 x h2
            exact ⟨a :: pre, post, by rw [List.cons_append, hdec],
              by rw [List.filter_cons_of_pos hpa, hp1], hp2⟩
      · have hpa' : p a = false := by
          cases h' : p a
          · rfl
          · exact absurd h' hpa
        rw [List.filter_cons_of_neg (by simp [hpa'])] at h
        obtain ⟨pre, post, hdec, hp1, hp2⟩ := ih l1 l2 x h
        exact ⟨a :: pre, post, by rw [List.cons_append, hdec],
          by rw [List.filter_cons_of_neg (by simp [hpa']), hp1], hp2⟩

theorem resolver_max_spec (data : List ThermalRecord) (t : ℚ)
    (h : ∃ r ∈ data, suitableTime t r = true) :
    ∃ r, ∃ m : ℚ, ∃ pre post,
      get_thermal_record_for_time data t = some r ∧
      r.time_minutes = some m ∧ m ≤ t ∧
      data = pre ++ r :: post ∧
      (∀ x ∈ data, ∀ mx : ℚ, x.time_minutes = some mx → mx ≤ t → mx ≤ m) ∧
      (∀ x ∈ pre, ∀ mx : ℚ, x.time_minutes = some mx → mx ≤ t → mx < m) := by
  obtain ⟨r0, hr0, hs0⟩ := h
  have hdne : data ≠ [] := by
    intro hh
    rw [hh] at hr0
    cases hr0
  have hmem0 : r0 ∈ data.filter (suitableTime t) :=
    List.mem_filter.mpr ⟨hr0, hs0⟩
  cases hfil : data.filter (suitableTime t) with
  | nil =>
      rw [hfil] at hmem0
      cases hmem0
  | cons s ss =>
      set M := pyBest (fun x b => decide (timeKeyMax b < timeKeyMax x)) s ss
        with hMdef
      have hres : get_thermal_record_for_time data t = some M := by
        rw [get_thermal_record_for_time, if_neg hdne]
        simp only [resolveNonempty]
        rw [hfil]
      obtain ⟨p', q', hdec, hub, hlt⟩ :=
        pyBest_decomp timeKeyMax
          (fun x b => decide (timeKeyMax b < timeKeyMax x))
          (fun x b => by simp) ss s
      rw [← hMdef] at hdec hub hlt
      have hMmem : M ∈ s :: ss := by
        rw [hdec]
        exact List.mem_append.mpr (Or.inr (List.mem_cons_self _ _))
      have hMsuit : suitableTime t M = true := by
        rw [← hfil] at hMmem
        exact (List.mem_filter.mp hMmem).2
      cases hMt : M.time_minutes with
      | none =>
          rw [suitableTime, hMt] at hMsuit
          cases hMsuit
      | some m =>
          have hmt : m ≤ t := by
            rw [suitableTime, hMt] at hMsuit
            exact of_decide_eq_true hMsuit
          have hkM : timeKeyMax M = m := by simp [timeKeyMax, hMt]
          have hfil2 : data.filter (suitableTime t) = p' ++ M :: q' := by
            rw [hfil, hdec]
          obtain ⟨pre, post, hdata, hpre, _hpost⟩ :=
            filter_decomp (suitableTime t) data p' q' M hfil2
          refine ⟨M, m, pre, post, hres, hMt, hmt, hdata, ?_, ?_⟩
          · intro x hx mx hmx hmxt
            have hxs : suitableTime t x = true := by
              simp [suitableTime, hmx, hmxt]
            have hxf : x ∈ s :: ss := by
              rw [← hfil]
              exact List.mem_filter.mpr ⟨hx, hxs⟩
            have hthis := hub x hxf
            rw [hkM] at hthis
            have hkx : timeKeyMax x = mx := by simp [timeKeyMax, hmx]
            rw [hkx] at hthis
            exact hthis
          · intro x hx mx hmx hmxt
            have hxs : suitableTime t x = true := by
              simp [suitableTime, hmx, hmxt]
            have hxf : x ∈ p' := by
              rw [← hpre]
              exact List.mem_filter.mpr ⟨hx, hxs⟩
            have hthis := hlt x hxf
            rw [hkM] at hthis
            have hkx : timeKeyMax x = mx := by simp [timeKeyMax, hmx]
            rw [hkx] at hthis
            exact hthis

theorem resolver_min_spec (data : List ThermalRecord) (t : ℚ)
    (hdne : data ≠ [])
    (hnone : ∀ r ∈ data, suitableTime t r = false)
    (hex : ∃ r ∈ data, r.time_minutes.isSome = true) :
    ∃ r, ∃ m : ℚ, ∃ pre post,
      get_thermal_record_for_time data t = some r ∧
      r.time_minutes = some m ∧
      data = pre ++ r :: post ∧
      (∀ x ∈ data, ∀ mx : ℚ, x.time_minutes = some mx → m ≤ mx) ∧
      (∀ x ∈ pre, ∀ mx : ℚ, x.time_minutes = some mx → m < mx) := by
  have hnosuit : data.filter (suitableTime t) = [] := by
    rw [List.filter_eq_nil]
    intro a ha hcon
    rw [hnone a ha] at hcon
    cases hcon
  obtain ⟨r0, hr0, hs0⟩ := hex
  have hmem0 : r0 ∈ data.filter (fun r => r.time_minutes.isSome) :=
    List.mem_filter.mpr ⟨hr0, hs0⟩
  cases hfil : data.filter (fun r => r.time_minutes.isSome) with
  | nil =>
      rw [hfil] at hmem0
      cases hmem0
  | cons a rest =>
      set M := pyBest (fun x b => decide (timeKeyInf x < timeKeyInf b)) a rest
        with hMdef
      have hres : get_thermal_record_for_time data t = some M := by
        rw [get_thermal_record_for_time, if_neg hdne]
        simp only [resolveNonempty]
        rw [hnosuit, hfil]
      obtain ⟨p', q', hdec, hub, hlt⟩ :=
        pyBest_decomp (fun r => OrderDual.toDual (timeKeyInf r))
          (fun x b => decide (timeKeyInf x < timeKeyInf b))
          (fun x b => by simp) rest a
      rw [← hMdef] at hdec hub hlt
      have hMmem : M ∈ a :: rest := by
        rw [hdec]
        exact List.mem_append.mpr (Or.inr (List.mem_cons_self _ _))
      have hMisSome : M.time_minutes.isSome = true := by
        rw [← hfil] at hMmem
        exact (List.mem_filter.mp hMmem).2
      cases hMt : M.time_minutes with
      | none =>
          rw [hMt] at hMisSome
          cases hMisSome
      | some m =>
          have hkM : timeKeyInf M = (m : WithTop ℚ) := by
            simp [timeKeyInf, hMt]
          have hfil2 : data.filter (fun r => r.time_minutes.isSome) =
              p' ++ M :: q' := by
            rw [hfil, hdec]
          obtain ⟨pre, post, hdata, hpre, _hpost⟩ :=
            filter_decomp (fun r => r.time_minutes.isSome) data p' q' M hfil2
          refine ⟨M, m, pre, post, hres, hMt, hdata, ?_, ?_⟩
          · intro x hx mx hmx
            have hxf : x ∈ a :: rest := by
              rw [← hfil]
              exact List.mem_filter.mpr ⟨hx, by simp [hmx]⟩
            have hthis := hub x hxf
            rw [OrderDual.toDual_le_toDual] at hthis
            rw [hkM] at hthis
            have hkx : timeKeyInf x = (mx : WithTop ℚ) := by
              simp [timeKeyInf, hmx]
            rw [hkx] at hthis
            exact_mod_cast hthis
          · intro x hx mx hmx
            have hxf : x ∈ p' := by
              rw [← hpre]
              exact List.mem_filter.mpr ⟨hx, by simp [hmx]⟩
            have hthis := hlt x hxf
            rw [OrderDual.toDual_lt_toDual] at hthis
            rw [hkM] at hthis
            have hkx : timeKeyInf x = (mx : WithTop ℚ) := by
              simp [timeKeyInf, hmx]
            rw [hkx] at hthis
            exact_mod_cast hthis

/-! ## Claim C3 -/

/-- C3.  On a thermal series whose records all carry a numeric time field:
an empty series resolves to none; when at least one record has time at most
the requested exposure time, the resolver returns a record among those with
the maximum such time, and it is the first occurrence in the series of that
maximum (every suitable record strictly before it has a strictly smaller
time); when no record has time at most the requested time, the resolver
returns the record with the minimum time in the whole series, again the
first occurrence among ties. -/
theorem C3_thermal_resolver (data : List ThermalRecord) (t : ℚ)
    (hall : ∀ r ∈ data, r.time_minutes.isSome = true) :
    (data = [] → get_thermal_record_for_time data t = none) ∧
    ((∃ r ∈ data, ∃ m : ℚ, r.time_minutes = some m ∧ m ≤ t) →
      ∃ r, ∃ m : ℚ, ∃ pre post,
        get_thermal_record_for_time data t = some r ∧
        r.time_minutes = some m ∧ m ≤ t ∧
        data = pre ++ r :: post ∧
        (∀ x ∈ data, ∀ mx : ℚ, x.time_minutes = some mx → mx ≤ t → mx ≤ m) ∧
        (∀ x ∈ pre, ∀ mx : ℚ, x.time_minutes = some mx → mx ≤ t → mx < m)) ∧
    (data ≠ [] → (∀ r ∈ data, ∀ m : ℚ, r.time_minutes = some m → t < m) →
      ∃ r, ∃ m : ℚ, ∃ pre post,
        get_thermal_record_for_time data t = some r ∧
        r.time_minutes = some m ∧
        data = pre ++ r :: post ∧
        (∀ x ∈ data, ∀ mx : ℚ, x.time_minutes = some mx → m ≤ mx) ∧
        (∀ x ∈ pre, ∀ mx : ℚ, x.time_minutes = some mx → m < mx)) := by
  refine ⟨?_, ?_, ?_⟩
  · intro h
    rw [get_thermal_record_for_time, if_pos h]
  · intro h
    apply resolver_max_spec
    obtain ⟨r, hr, m, hm, hmt⟩ := h
    exact ⟨r, hr, by simp [suitableTime, hm, hmt]⟩
  · intro hdne hlate
    apply resolver_min_spec data t hdne
    · intro r hr
      cases hm : r.time_minutes with
      | none => rw [suitableTime, hm]
      | some m =>
          rw [suitableTime, hm]
          simp only [decide_eq_false_iff_not, not_le]
          exact hlate r hr m hm
    · cases data with
      | nil => exact absurd rfl hdne
      | cons d ds => exact ⟨d, List.mem_cons_self _ _, hall d (List.mem_cons_self _ _)⟩

/-- C3 witness: on the two record series with times 0 and 60 and exposure
time 30, the resolver picks a record with time 0 (the hold last known value
policy), as obtained by applying the claim theorem at these inputs. -/
theorem C3_witness :
    ∃ r, ∃ m : ℚ, ∃ pre post,
      get_thermal_record_for_time
        [⟨some 0, none, none, none, none, none, none, none, none, none⟩,
         ⟨some 60, none, none, none, none, none, none, none, none, none⟩]
        30 = some r ∧
      r.time_minutes = some m ∧ m ≤ 30 ∧
      [(⟨some 0, none, none, none, none, none, none, none, none, none⟩ :
          ThermalRecord),
       ⟨some 60, none, none, none, none, none, none, none, none, none⟩] =
        pre ++ r :: post ∧
      (∀ x ∈ [(⟨some 0, none, none, none, none, none, none, none, none,
          none⟩ : ThermalRecord),
         ⟨some 60, none, none, none, none, none, none, none, none, none⟩],
        ∀ mx : ℚ, x.time_minutes = some mx → mx ≤ 30 → mx ≤ m) ∧
      (∀ x ∈ pre, ∀ mx : ℚ, x.time_minutes = some mx → mx ≤ 30 → mx < m) :=
  (C3_thermal_resolver _ 30
    (by
      intro r hr
      rcases List.mem_cons.mp hr with rfl | hr'
      · rfl
      · rcases List.mem_cons.mp hr' with rfl | hr''
        · rfl
        · cases hr'')).2.1
    ⟨⟨some 0, none, none, none, none, none, none, none, none, none⟩,
      List.mem_cons_self _ _, 0, rfl, by norm_num⟩

/-! ## Claim C10 -/

/-- C10.  Records whose time field is missing or non numeric are silently
skipped: the resolver result on any series equals its result on the series
restricted to records with a numeric time field, and when no record has a
numeric time field the resolver returns none even on a non empty series.
No error is raised: the resolver is a total function. -/
theorem C10_malformed_records (data : List ThermalRecord) (t : ℚ) :
    get_thermal_record_for_time data t =
      get_thermal_record_for_time
        (data.filter (fun r => r.time_minutes.isSome)) t ∧
    ((∀ r ∈ data, r.time_minutes = none) →
      get_thermal_record_for_time data t = none) := by
  have hfilsuit : data.filter (suitableTime t) =
      (data.filter (fun r => r.time_minutes.isSome)).filter (suitableTime t) := by
    rw [List.filter_filter]
    apply List.filter_congr
    intro a _
    cases h : a.time_minutes with
    | none => simp [suitableTime, h]
    | some m => simp [suitableTime, h]
  have hfilsome : data.filter (fun r => r.time_minutes.isSome) =
      (data.filter (fun r => r.time_minutes.isSome)).filter
        (fun r => r.time_minutes.isSome) := by
    rw [List.filter_filter]
    apply List.filter_congr
    intro a _
    cases h : a.time_minutes with
    | none => simp [h]
    | some m => simp [h]
  constructor
  · by_cases hd : data = []
    · subst hd
      simp [get_thermal_record_for_time]
    · by_cases hf : data.filter (fun r => r.time_minutes.isSome) = []
      · rw [get_thermal_record_for_time, if_neg hd, hf,
          get_thermal_record_for_time, if_pos rfl]
        simp only [resolveNonempty]
        rw [hfilsuit, hf]
        simp only [List.filter_nil]
      · rw [get_thermal_record_for_time, if_neg hd,
          get_thermal_record_for_time, if_neg hf]
        simp only [resolveNonempty]
        rw [hfilsuit, ← hfilsome]
  · intro hnone
    have hf : data.filter (fun r => r.time_minutes.isSome) = [] := by
      rw [List.filter_eq_nil]
      intro a ha hcon
      rw [hnone a ha] at hcon
      cases hcon
    by_cases hd : data = []
    · subst hd
      simp [get_thermal_record_for_time]
    · rw [get_thermal_record_for_time, if_neg hd]
      simp only [resolveNonempty]
      rw [hfilsuit, hf]
      simp only [List.filter_nil]

/-- C10 witness: a one record series whose single record has no numeric
time resolves to none, obtained by applying the claim theorem at this
concrete series. -/
theorem C10_witness :
    get_thermal_record_for_time
      [⟨none, none, none, none, none, none, none, none, none, none⟩] 0 =
      none :=
  (C10_malformed_records
    [⟨none, none, none, none, none, none, none, none, none, none⟩] 0).2
    (by
      intro r hr
      rcases List.mem_cons.mp hr with rfl | hr'
      · rfl
      · cases hr')

/-! ## Lemmas about the ring construction loop -/

theorem mem_exists_get? {γ : Type} :
    ∀ (l : List γ) (a : γ), a ∈ l → ∃ j, l.get? j = some a := by
  intro l
  induction l with
  | nil => intro a h; cases h
  | cons x xs ih =>
      intro a h
      rcases List.mem_cons.mp h with rfl | h'
      · exact ⟨0, rfl⟩
      · obtain ⟨j, hj⟩ := ih a h'
        exact ⟨j + 1, by rw [List.get?_cons_succ]; exact hj⟩

theorem get?_replicate_of_lt {γ : Type} (a : γ) :
    ∀ (n i : ℕ), i < n → (List.replicate n a).get? i = some a := by
  intro n
  induction n with
  | zero => intro i h; exact absurd h (Nat.not_lt_zero i)
  | succ m ih =>
      intro i h
      cases i with
      | zero => rw [List.replicate_succ, List.get?_cons_zero]
      | succ j =>
          rw [List.replicate_succ, List.get?_cons_succ]
          exact ih j (Nat.lt_of_succ_lt_succ h)

theorem buildRings_length (tr : Option ThermalRecord) (ths : List (Option ℝ)) :
    ∀ (n i : ℕ) (outer : ℝ), (buildRings tr ths n i outer).length = n := by
  intro n
  induction n with
  | zero => intro i outer; rfl
  | succ m ih =>
      intro i outer
      simp only [buildRings, List.length_cons]
      rw [ih]

theorem buildRings_head (tr : Option ThermalRecord) (ths : List (Option ℝ)) :
    ∀ (n i : ℕ) (outer : ℝ) (r : ConcreteRing),
      (buildRings tr ths n i outer).get? 0 = some r →
      r.outer_radius_mm = outer := by
  intro n
  cases n with
  | zero => intro i outer r h; simp [buildRings] at h
  | succ m =>
      intro i outer r h
      simp only [buildRings, List.get?_cons_zero] at h
      injection h with h'
      rw [← h']

theorem buildRings_get (tr : Option ThermalRecord) (ths : List (Option ℝ)) :
    ∀ (n i : ℕ) (outer : ℝ) (j : ℕ) (r : ConcreteRing),
      (buildRings tr ths n i outer).get? j = some r →
      r.inner_radius_mm =
        max 0 (r.outer_radius_mm - thicknessAt ths (i + j) r.outer_radius_mm) ∧
      r.area_mm2 = (if r.inner_radius_mm < r.outer_radius_mm then
        Real.pi * (r.outer_radius_mm ^ 2 - r.inner_radius_mm ^ 2) else 0) ∧
      r.temperature_celsius =
        (match tr with
         | none => none
         | some rc => temperature_mapping rc (i + j)) := by
  intro n
  induction n with
  | zero => intro i outer j r h; simp [buildRings] at h
  | succ m ih =>
      intro i outer j r h
      simp only [buildRings] at h
      cases j with
      | zero =>
          rw [List.get?_cons_zero] at h
          injection h with h'
          subst h'
          refine ⟨by simp, by simp, by simp⟩
      | succ jj =>
          rw [List.get?_cons_succ] at h
          have hres := ih (i + 1) _ jj r h
          have harith : i + 1 + jj = i + (jj + 1) := by omega
          rw [harith] at hres
          exact hres

theorem buildRings_consecutive (tr : Option ThermalRecord)
    (ths : List (Option ℝ)) :
    ∀ (n i : ℕ) (outer : ℝ) (j : ℕ) (r1 r2 : ConcreteRing),
      (buildRings tr ths n i outer).get? j = some r1 →
      (buildRings tr ths n i outer).get? (j + 1) = some r2 →
      r2.outer_radius_mm = r1.inner_radius_mm := by
  intro n
  induction n with
  | zero => intro i outer j r1 r2 h1 _; simp [buildRings] at h1
  | succ m ih =>
      intro i outer j r1 r2 h1 h2
      simp only [buildRings] at h1 h2
      cases j with
      | zero =>
          rw [List.get?_cons_zero] at h1
          rw [List.get?_cons_succ] at h2
          injection h1 with h1'
          subst h1'
          have := buildRings_head tr ths m (i + 1) _ r2 h2
          rw [this]
      | succ jj =>
          rw [List.get?_cons_succ] at h1 h2
          exact ih (i + 1) _ jj r1 r2 h1 h2

theorem buildRings_depthSum (tr : Option ThermalRecord)
    (ths : List (Option ℝ)) :
    ∀ (n i : ℕ) (outer : ℝ),
      ((buildRings tr ths n i outer).map
        (fun r => r.outer_radius_mm - r.inner_radius_mm)).sum =
        outer - ringsFinalRadius ths n i outer := by
  intro n
  induction n with
  | zero => intro i outer; simp [buildRings, ringsFinalRadius]
  | succ m ih =>
      intro i outer
      simp only [buildRings, ringsFinalRadius, List.map_cons, List.sum_cons]
      rw [ih]
      ring

theorem ringsFinalRadius_uniform (w : ℝ) (hw : 0 ≤ w) (nn : ℕ) :
    ∀ (m i : ℕ), i + m ≤ nn →
      ringsFinalRadius (List.replicate nn (some w)) m i ((m : ℝ) * w) = 0 := by
  intro m
  induction m with
  | zero => intro i _; simp [ringsFinalRadius]
  | succ k ih =>
      intro i hile
      simp only [ringsFinalRadius]
      have hget : (List.replicate nn (some w)).get? i = some (some w) :=
        get?_replicate_of_lt (some w) nn i (by omega)
      have hth : thicknessAt (List.replicate nn (some w)) i
          (((k : ℕ) + 1 : ℕ) * w) = w := by
        rw [thicknessAt, hget]
      have harg : max 0 ((((k : ℕ) + 1 : ℕ) : ℝ) * w - w) = (k : ℝ) * w := by
        have hcast : (((k : ℕ) + 1 : ℕ) : ℝ) = (k : ℝ) + 1 := by push_cast; ring
        rw [hcast]
        have hval : ((k : ℝ) + 1) * w - w = (k : ℝ) * w := by ring
        rw [hval]
        exact max_eq_right (by positivity)
      rw [show thicknessAt (List.replicate nn (some w)) i
            ((((k : ℕ) + 1 : ℕ) : ℝ) * w) = w from by rw [thicknessAt, hget]]
      rw [harg]
      exact ih (i + 1) (by omega)

/-! ## Claim C6 -/

/-- C6.  The ring discretization walks the plan from the outside in: the
first ring has outer radius diameter over two minus the wall thickness; each
later ring has outer radius equal to the inner radius of the ring before it;
the inner radius is the outer radius minus the requested plan thickness
clamped at zero, and zero for a fill-remainder or missing plan entry; the
stored area is pi times the difference of squared radii, and zero when the
outer radius does not exceed the inner one; and for the uniform default plan
on a nonempty thermal series the ring depths sum exactly to the concrete
core outer radius. -/
theorem C6_ring_geometry (d th : ℝ) (data : List ThermalRecord) (t : ℚ)
    (n : ℕ) (plan : Option (List (Option ℝ))) :
    (∀ r : ConcreteRing,
      (discretize_concrete_core_into_rings d th data t n plan).get? 0 = some r →
      r.outer_radius_mm = d / 2 - th) ∧
    (∀ (j : ℕ) (r1 r2 : ConcreteRing),
      (discretize_concrete_core_into_rings d th data t n plan).get? j = some r1 →
      (discretize_concrete_core_into_rings d th data t n plan).get? (j + 1) = some r2 →
      r2.outer_radius_mm = r1.inner_radius_mm) ∧
    (∀ (j : ℕ) (r : ConcreteRing),
      (discretize_concrete_core_into_rings d th data t n plan).get? j = some r →
      (∀ v : ℝ,
        (effective_ring_thicknesses (d / 2 - th) n plan).get? j = some (some v) →
        r.inner_radius_mm = max 0 (r.outer_radius_mm - v)) ∧
      ((effective_ring_thicknesses (d / 2 - th) n plan).get? j = some none ∨
        (effective_ring_thicknesses (d / 2 - th) n plan).get? j = none →
        r.inner_radius_mm = 0)) ∧
    (∀ r ∈ discretize_concrete_core_into_rings d th data t n plan,
      r.area_mm2 = (if r.inner_radius_mm < r.outer_radius_mm then
        Real.pi * (r.outer_radius_mm ^ 2 - r.inner_radius_mm ^ 2) else 0)) ∧
    (data ≠ [] → plan = none → 0 < n → 0 ≤ d / 2 - th →
      ((discretize_concrete_core_into_rings d th data t n plan).map
        (fun r => r.outer_radius_mm - r.inner_radius_mm)).sum = d / 2 - th) := by
  by_cases hd : data = []
  · subst hd
    refine ⟨?_, ?_, ?_, ?_, ?_⟩
    · intro r h
      simp [discretize_concrete_core_into_rings] at h
    · intro j r1 r2 h1 _
      simp [discretize_concrete_core_into_rings] at h1
    · intro j r h
      simp [discretize_concrete_core_into_rings] at h
    · intro r h
      simp [discretize_concrete_core_into_rings] at h
    · intro hne
      exact absurd rfl hne
  · have hunf : discretize_concrete_core_into_rings d th data t n plan =
        buildRings (resolveNonempty data t)
          (effective_ring_thicknesses (d / 2 - th) n plan) n 0 (d / 2 - th) := by
      rw [discretize_concrete_core_into_rings, if_neg hd]
    refine ⟨?_, ?_, ?_, ?_, ?_⟩
    · intro r h
      rw [hunf] at h
      exact buildRings_head _ _ n 0 _ r h
    · intro j r1 r2 h1 h2
      rw [hunf] at h1 h2
      exact buildRings_consecutive _ _ n 0 _ j r1 r2 h1 h2
    · intro j r h
      rw [hunf] at h
      have hres := (buildRings_get _ _ n 0 _ j r h).1
      rw [Nat.zero_add] at hres
      constructor
      · intro v hv
        rw [hres, thicknessAt, hv]
      · intro hcase
        rcases hcase with hv | hv
        · rw [hres, thicknessAt, hv]
          simp
        · rw [hres, thicknessAt, hv]
          simp
    · intro r hr
      rw [hunf] at hr
      obtain ⟨j, hj⟩ := mem_exists_get? _ r hr
      exact (buildRings_get _ _ n 0 _ j r hj).2.1
    · intro _ hplan hn hcore
      subst hplan
      rw [hunf]
      simp only [effective_ring_thicknesses]
      have hne : ((n : ℕ) : ℝ) ≠ 0 := Nat.cast_ne_zero.mpr (Nat.pos_iff_ne_zero.mp hn)
      have hcoreeq : d / 2 - th = ((n : ℕ) : ℝ) * ((d / 2 - th) / (n : ℝ)) := by
        field_simp
        ring
      rw [buildRings_depthSum]
      rw [show ringsFinalRadius (List.replicate n (some ((d / 2 - th) / (n : ℝ))))
            n 0 (d / 2 - th) =
          ringsFinalRadius (List.replicate n (some ((d / 2 - th) / (n : ℝ))))
            n 0 (((n : ℕ) : ℝ) * ((d / 2 - th) / (n : ℝ))) from by rw [← hcoreeq]]
      rw [ringsFinalRadius_uniform ((d / 2 - th) / (n : ℝ))
        (div_nonneg hcore (Nat.cast_nonneg n)) n n 0 (by omega)]
      ring

/-- C6 witness: for a column of diameter 200 and wall thickness 0 over a
one record series, the uniform two ring plan has depths summing to the core
radius 100, obtained by applying the claim theorem at these inputs. -/
theorem C6_witness :
    ((discretize_concrete_core_into_rings 200 0
      [⟨some 0, none, none, none, none, none, none, none, none, none⟩]
      0 2 none).map
        (fun r => r.outer_radius_mm - r.inner_radius_mm)).sum = 200 / 2 - 0 :=
  (C6_ring_geometry 200 0
    [⟨some 0, none, none, none, none, none, none, none, none, none⟩]
    0 2 none).2.2.2.2 (by simp) rfl (by norm_num) (by norm_num)

/-! ## Shared helper lemmas for the accumulator claims -/

theorem get_thermal_singleton (r : ThermalRecord) (t m : ℚ)
    (hm : r.time_minutes = some m) (hmt : m ≤ t) :
    get_thermal_record_for_time [r] t = some r := by
  have hf : [r].filter (suitableTime t) = [r] := by
    simp [suitableTime, hm, hmt]
  rw [get_thermal_record_for_time, if_neg (by simp)]
  simp only [resolveNonempty]
  rw [hf]
  simp [pyBest]

theorem concrete_coeff_of_ge_1200 (T : ℚ) (h : 1200 ≤ T) :
    concrete_working_condition_coeff T = 0.0 := by
  rw [concrete_working_condition_coeff]
  have hle : (concreteTableTail.getLastD (20, 1.00)).1 ≤ T := by
    rw [concreteTable_last]; exact h
  have h2 := tableLookup_ge_last T (20, 1.00) concreteTableTail
    concreteTable_sorted hle
  rw [concreteTable_last] at h2
  exact h2

theorem get_reduction_coeff_zero : get_reduction_coeff 0 = 1.0 := by
  rw [get_reduction_coeff]
  exact tableLookup_le_first 0 (0.0, 1.0) phiTableTail (by norm_num)

theorem rebarCapacityTerm_count_zero (rd s : ℝ) (use : Bool)
    (tr : Option ThermalRecord) : rebarCapacityTerm rd 0 s use tr = 0 := by
  cases use with
  | false => rfl
  | true =>
      cases tr with
      | none => simp [rebarCapacityTerm]
      | some r =>
          cases h : r.temp_t4 with
          | none => simp [rebarCapacityTerm, h]
          | some T => simp [rebarCapacityTerm, h]

/-! ## Claim C5 -/

/-- C5 (amended).  A concrete ring with an absent temperature, or whose
strain is undefined or zero, contributes zero to the stiffness sum, and no
error is raised (the contribution functions are total).  A ring with an
absent temperature also contributes zero to the capacity sum, as does a
ring at 1200 degrees or hotter, where the concrete coefficient is zero.
The amendment: a ring whose temperature lies strictly between 1100 and 1200
degrees has an undefined strain yet still contributes its coefficient
scaled capacity, because the capacity loop never consults the strain. -/
theorem C5_destroyed_ring_contributions (c : ℝ) (r : ConcreteRing) :
    ((r.temperature_celsius = none ∨
      (∃ T : ℚ, r.temperature_celsius = some T ∧
        (concrete_strain_by_temp T = none ∨
          concrete_strain_by_temp T = some 0))) →
      ringStiffnessContrib c r = 0) ∧
    (r.temperature_celsius = none → ringCapacityContrib c r = 0) ∧
    (∀ T : ℚ, r.temperature_celsius = some T → 1200 ≤ T →
      ringCapacityContrib c r = 0) := by
  refine ⟨?_, ?_, ?_⟩
  · intro h
    rcases h with h | ⟨T, hT, hstrain⟩
    · simp [ringStiffnessContrib, h]
    · rcases hstrain with hs | hs
      · simp [ringStiffnessContrib, hT, hs]
      · simp [ringStiffnessContrib, hT, hs]
  · intro h
    simp [ringCapacityContrib, h]
  · intro T hT h1200
    have hγ : concrete_working_condition_coeff T = 0.0 :=
      concrete_coeff_of_ge_1200 T h1200
    simp only [ringCapacityContrib, hT, hγ]
    norm_num

/-- C5 counterexample: the one ring discretization of a 200 mm column with
no steel wall, whose single ring is assigned 1150 degrees, has an undefined
concrete strain, yet its capacity contribution is pi times 0.05, which is
not zero — the claim that such a ring contributes zero to the capacity sum
fails. -/
theorem C5_counterexample :
    concrete_strain_by_temp 1150 = none ∧
    discretize_concrete_core_into_rings 200 0
      [⟨some 0, none, some 1150, none, none, none, none, none, none, none⟩]
      0 1 none =
      [⟨100, 0, Real.pi * (100 ^ 2 - 0 ^ 2), some 1150⟩] ∧
    ringCapacityContrib 1
      ⟨100, 0, Real.pi * (100 ^ 2 - 0 ^ 2), some 1150⟩ ≠ 0 := by
  refine ⟨strain_none_above_1100 1150 (by norm_num), ?_, ?_⟩
  · have hres : resolveNonempty
        [⟨some 0, none, some 1150, none, none, none, none, none, none, none⟩]
        0 = some ⟨some 0, none, some 1150, none, none, none, none, none, none,
          none⟩ := by
      have hf : [(⟨some 0, none, some 1150, none, none, none, none, none, none,
          none⟩ : ThermalRecord)].filter (suitableTime 0) =
          [⟨some 0, none, some 1150, none, none, none, none, none, none,
            none⟩] := by
        simp [suitableTime]
      simp only [resolveNonempty]
      rw [hf]
      simp [pyBest]
    rw [discretize_concrete_core_into_rings, if_neg (by simp), hres]
    simp only [effective_ring_thicknesses]
    simp only [buildRings, thicknessAt]
    norm_num
    rfl
  · have hγ : concrete_working_condition_coeff 1150 = 1 / 200 := by
      have h := tableLookup_between (1150 : ℚ) (1100, 0.01) (1200, 0.0)
        (by norm_num) (by norm_num) (20, 1.00) concreteTableTail
        concreteTable_sorted 11 rfl rfl
      rw [concrete_working_condition_coeff, concreteTable]
      rw [h]
      norm_num
    simp only [ringCapacityContrib, hγ]
    have hpos : (0 : ℝ) <
        Real.pi * (100 ^ 2 - 0 ^ 2) / 1e6 * (((1 / 200 : ℚ) : ℝ) * 1) * 1e3 := by
      push_cast
      have hp := Real.pi_pos
      norm_num
      positivity
    exact ne_of_gt hpos

/-! ## Claim C8 -/

/-- C8 (amended).  The reinforcement capacity contribution vanishes when
the bar count is zero, and both reinforcement terms vanish when
reinforcement is disabled; but the stiffness total does not depend on the
bar count at all, because the source hard codes the eight bar closed form,
so the reinforcement stiffness contribution is generally nonzero even with
a zero bar count. -/
theorem C8_reinforcement_gating (diameter_mm thickness_mm : ℝ)
    (data : List ThermalRecord) (t : ℚ)
    (steel_strength concrete_strength E rd : ℝ) (count : ℕ) (n : ℕ)
    (plan : Option (List (Option ℝ))) :
    calculate_capacity_for_time diameter_mm thickness_mm data t
      steel_strength concrete_strength true rd 0 n plan =
      calculate_capacity_for_time diameter_mm thickness_mm data t
        steel_strength concrete_strength false rd 0 n plan ∧
    (∀ k1 k2 : ℕ,
      calculate_stiffness_for_time diameter_mm thickness_mm data t
        concrete_strength E true rd k1 n plan =
      calculate_stiffness_for_time diameter_mm thickness_mm data t
        concrete_strength E true rd k2 n plan) ∧
    rebarCapacityTerm rd count steel_strength false
      (get_thermal_record_for_time data t) = 0 ∧
    rebarStiffnessTerm diameter_mm thickness_mm E rd false
      (get_thermal_record_for_time data t) = 0 := by
  refine ⟨?_, ?_, rfl, rfl⟩
  · simp only [calculate_capacity_for_time]
    rw [rebarCapacityTerm_count_zero, rebarCapacityTerm_count_zero]
  · intro k1 k2
    rfl

/-- C8 counterexample: with reinforcement enabled and a bar count of zero,
on a one record series whose reinforcement channel reads 20 degrees and a
single ring plan (the single ring has no assigned temperature and so
contributes nothing), the stiffness total differs from the total with
reinforcement disabled — the reinforcement contribution to the stiffness
sum is not zero, contradicting the claim. -/
theorem C8_counterexample :
    calculate_stiffness_for_time 100 0
      [⟨some 0, none, none, none, some 20, none, none, none, none, none⟩]
      0 1 1 true 10 0 1 none ≠
    calculate_stiffness_for_time 100 0
      [⟨some 0, none, none, none, some 20, none, none, none, none, none⟩]
      0 1 1 false 10 0 1 none := by
  have hres : get_thermal_record_for_time
      [⟨some 0, none, none, none, some 20, none, none, none, none, none⟩] 0 =
      some ⟨some 0, none, none, none, some 20, none, none, none, none, none⟩ :=
    get_thermal_singleton _ 0 0 rfl (le_refl 0)
  have hres2 : resolveNonempty
      [⟨some 0, none, none, none, some 20, none, none, none, none, none⟩] 0 =
      some ⟨some 0, none, none, none, some 20, none, none, none, none, none⟩ := by
    have h := hres
    rwa [get_thermal_record_for_time, if_neg (by simp)] at h
  have hγ : steel_working_condition_coeff 20 = 1.00 := by
    rw [steel_working_condition_coeff]
    exact tableLookup_le_first 20 (20, 1.00) steelTableTail (le_refl _)
  simp only [calculate_stiffness_for_time, hres]
  rw [discretize_concrete_core_into_rings, if_neg (by simp), hres2]
  simp only [effective_ring_thicknesses, List.replicate]
  simp only [buildRings, thicknessAt, temperature_mapping]
  simp only [ringStiffnessContrib, List.map_cons, List.map_nil,
    List.sum_cons, List.sum_nil]
  simp only [steelStiffnessTerm, rebarStiffnessTerm, hγ]
  intro hcon
  rw [MATERIAL_CONSTANTS_REBAR_COVER_MM] at hcon
  norm_num at hcon
  have hp := Real.pi_pos
  nlinarith

/-- C8 witness: with a zero bar count the capacity totals with and without
reinforcement agree on a concrete input, obtained by applying the claim
theorem there. -/
theorem C8_witness :
    calculate_capacity_for_time 100 0
      [⟨some 0, none, none, none, some 20, none, none, none, none, none⟩]
      0 355 42 true 10 0 1 none =
    calculate_capacity_for_time 100 0
      [⟨some 0, none, none, none, some 20, none, none, none, none, none⟩]
      0 355 42 false 10 0 1 none :=
  (C8_reinforcement_gating 100 0
    [⟨some 0, none, none, none, some 20, none, none, none, none, none⟩]
    0 355 42 1 10 8 1 none).1

/-! ## Claim C9 -/

/-- C9.  Toggling reinforcement on changes the capacity total by exactly
the isolated reinforcement capacity term and the stiffness total by exactly
the isolated reinforcement stiffness term; and when the resolved record
carries a numeric reinforcement channel temperature those terms are the bar
count times the per bar area times the degraded strength with unit
conversion, and the eight bar inertia closed form times the degraded
modulus with unit conversion. -/
theorem C9_rebar_additivity (diameter_mm thickness_mm : ℝ)
    (data : List ThermalRecord) (t : ℚ)
    (steel_strength concrete_strength E rd : ℝ) (count : ℕ) (n : ℕ)
    (plan : Option (List (Option ℝ))) :
    calculate_capacity_for_time diameter_mm thickness_mm data t
      steel_strength concrete_strength true rd count n plan -
      calculate_capacity_for_time diameter_mm thickness_mm data t
        steel_strength concrete_strength false rd count n plan =
      rebarCapacityTerm rd count steel_strength true
        (get_thermal_record_for_time data t) ∧
    calculate_stiffness_for_time diameter_mm thickness_mm data t
      concrete_strength E true rd count n plan -
      calculate_stiffness_for_time diameter_mm thickness_mm data t
        concrete_strength E false rd count n plan =
      rebarStiffnessTerm diameter_mm thickness_mm E rd true
        (get_thermal_record_for_time data t) ∧
    (∀ rc : ThermalRecord, get_thermal_record_for_time data t = some rc →
      ∀ T : ℚ, rc.temp_t4 = some T →
      rebarCapacityTerm rd count steel_strength true (some rc) =
        Real.pi * rd ^ 2 / 4 * (count : ℝ) / 1e6 *
          ((steel_working_condition_coeff T : ℝ) * steel_strength) * 1e3 ∧
      rebarStiffnessTerm diameter_mm thickness_mm E rd true (some rc) =
        (8 * (Real.pi * rd ^ 4 / 64) +
          4 * (Real.pi * rd ^ 2 / 4) *
            (diameter_mm / 2 - thickness_mm -
              MATERIAL_CONSTANTS_REBAR_COVER_MM - rd / 2) ^ 2) * 1e-12 *
          (E * (steel_working_condition_coeff T : ℝ)) * 1e3) := by
  refine ⟨?_, ?_, ?_⟩
  · simp only [calculate_capacity_for_time]
    have h0 : rebarCapacityTerm rd count steel_strength false
        (get_thermal_record_for_time data t) = 0 := rfl
    rw [h0]
    ring
  · simp only [calculate_stiffness_for_time]
    have h0 : rebarStiffnessTerm diameter_mm thickness_mm E rd false
        (get_thermal_record_for_time data t) = 0 := rfl
    rw [h0]
    ring
  · intro rc _ T hT
    constructor
    · simp [rebarCapacityTerm, hT]
    · simp [rebarStiffnessTerm, hT]

/-- C9 witness: on a one record series whose reinforcement channel reads
20 degrees, the reinforcement capacity term equals the explicit bar count
times per bar area formula, obtained by applying the claim theorem at
these concrete inputs. -/
theorem C9_witness :
    rebarCapacityTerm 10 8 355 true
      (some ⟨some 0, none, none, none, some 20, none, none, none, none,
        none⟩) =
      Real.pi * 10 ^ 2 / 4 * ((8 : ℕ) : ℝ) / 1e6 *
        ((steel_working_condition_coeff 20 : ℝ) * 355) * 1e3 :=
  ((C9_rebar_additivity 100 0
    [⟨some 0, none, none, none, some 20, none, none, none, none, none⟩]
    0 355 42 210000 10 8 0 none).2.2
    ⟨some 0, none, none, none, some 20, none, none, none, none, none⟩
    (get_thermal_singleton _ 0 0 rfl (le_refl 0)) 20 rfl).1

/-! ## Claim C1 -/

/-- C1.  The pipeline computes the critical load as pi squared times the
stiffness over the squared product of height and effective length
coefficient when stiffness, height and coefficient are all positive, else
zero; the slenderness as the square root of capacity over critical load
when the critical load is positive, else zero; the reduction coefficient by
the table lookup at that slenderness; and the final capacity as the
capacity times the reduction coefficient.  Whenever the critical load is
zero, the slenderness is zero, the reduction coefficient is exactly one,
and the final capacity equals the unreduced capacity. -/
theorem C1_final_capacity (diameter_mm thickness_mm height_m
    effective_length_coeff : ℝ) (data : List ThermalRecord) (t : ℚ)
    (steel_strength E concrete_strength : ℝ) (use_reinforcement : Bool)
    (rd : ℝ) (count : ℕ) (n : ℕ) (plan : Option (List (Option ℝ))) :
    ∃ S N N_cr sl φ : ℝ,
      S = calculate_stiffness_for_time diameter_mm thickness_mm data t
        concrete_strength E use_reinforcement rd count n plan ∧
      N = calculate_capacity_for_time diameter_mm thickness_mm data t
        steel_strength concrete_strength use_reinforcement rd count n plan ∧
      calculate_final_capacity diameter_mm thickness_mm height_m
        effective_length_coeff data t steel_strength E concrete_strength
        use_reinforcement rd count n plan = (N * φ, N, N_cr, sl, φ) ∧
      N_cr = (if 0 < S ∧ 0 < height_m ∧ 0 < effective_length_coeff then
        Real.pi ^ 2 * S / (height_m * effective_length_coeff) ^ 2 else 0) ∧
      sl = (if 0 < N_cr then Real.sqrt (N / N_cr) else 0) ∧
      φ = get_reduction_coeff sl ∧
      (N_cr = 0 → sl = 0 ∧ φ = 1.0 ∧ N * φ = N) := by
  refine ⟨_, _, _, _, _, rfl, rfl, rfl, rfl, rfl, rfl, ?_⟩
  intro hcr
  have hsl : (if 0 < (if 0 < calculate_stiffness_for_time diameter_mm
      thickness_mm data t concrete_strength E use_reinforcement rd count n
      plan ∧ 0 < height_m ∧ 0 < effective_length_coeff then
      Real.pi ^ 2 * calculate_stiffness_for_time diameter_mm thickness_mm
        data t concrete_strength E use_reinforcement rd count n plan /
        (height_m * effective_length_coeff) ^ 2 else 0) then
      Real.sqrt (calculate_capacity_for_time diameter_mm thickness_mm data t
        steel_strength concrete_strength use_reinforcement rd count n plan /
        (if 0 < calculate_stiffness_for_time diameter_mm thickness_mm data t
          concrete_strength E use_reinforcement rd count n plan ∧
          0 < height_m ∧ 0 < effective_length_coeff then
          Real.pi ^ 2 * calculate_stiffness_for_time diameter_mm thickness_mm
            data t concrete_strength E use_reinforcement rd count n plan /
            (height_m * effective_length_coeff) ^ 2 else 0)) else 0) = 0 := by
    rw [hcr]
    simp
  refine ⟨hsl, ?_, ?_⟩
  · rw [hsl, get_reduction_coeff_zero]
  · rw [hsl, get_reduction_coeff_zero]
    norm_num

/-- C1 witness: on an empty thermal series the stiffness is zero, so the
critical load is zero, the slenderness is zero, the reduction coefficient
is one, and the final capacity equals the unreduced capacity, obtained by
applying the claim theorem at concrete inputs. -/
theorem C1_witness :
    (calculate_final_capacity 100 5 3 0.7 [] 0 355 210000 42 false 10 8 7
      none).2.2.1 = 0 ∧
    (calculate_final_capacity 100 5 3 0.7 [] 0 355 210000 42 false 10 8 7
      none).2.2.2.2 = 1.0 ∧
    (calculate_final_capacity 100 5 3 0.7 [] 0 355 210000 42 false 10 8 7
      none).1 =
    (calculate_final_capacity 100 5 3 0.7 [] 0 355 210000 42 false 10 8 7
      none).2.1 := by
  obtain ⟨S, N, N_cr, sl, φ, hS, hN, htup, hcr, hsl, hφ, himp⟩ :=
    C1_final_capacity 100 5 3 0.7 [] 0 355 210000 42 false 10 8 7 none
  have hS0 : S = 0 := by
    rw [hS]
    simp [calculate_stiffness_for_time, discretize_concrete_core_into_rings,
      get_thermal_record_for_time, steelStiffnessTerm, rebarStiffnessTerm]
  have hcr0 : N_cr = 0 := by
    rw [hcr, hS0]
    simp
  obtain ⟨hsl0, hφ1, hfin⟩ := himp hcr0
  rw [htup]
  exact ⟨hcr0, hφ1, by simp [hfin]⟩

/-! ## Claim C7 -/

/-- C7 (amended).  Ring temperatures follow the fixed positional channel
mapping: ring 0 reads the second channel (temp_t2), ring 1 the third
(temp_t3), ring 2 the fifth (temp_t5), then temp_t6 through temp_t9,
skipping the steel wall channel (temp_t1) and the reinforcement channel
(temp_t4); any ring index beyond six reads no channel.  On a nonempty
series whose resolved snapshot is absent every produced ring has an absent
temperature.  The amendment: for an empty thermal series the discretizer
returns no rings at all, rather than producing the rings with absent
temperatures as the claim states. -/
theorem C7_ring_channel_mapping (d th : ℝ) (data : List ThermalRecord)
    (t : ℚ) (n : ℕ) (plan : Option (List (Option ℝ))) :
    (data = [] → discretize_concrete_core_into_rings d th data t n plan = []) ∧
    (data ≠ [] →
      (discretize_concrete_core_into_rings d th data t n plan).length = n) ∧
    (data ≠ [] → ∀ rc : ThermalRecord,
      get_thermal_record_for_time data t = some rc →
      ∀ (j : ℕ) (r : ConcreteRing),
        (discretize_concrete_core_into_rings d th data t n plan).get? j = some r →
        r.temperature_celsius = temperature_mapping rc j) ∧
    (∀ rc : ThermalRecord,
      temperature_mapping rc 0 = rc.temp_t2 ∧
      temperature_mapping rc 1 = rc.temp_t3 ∧
      temperature_mapping rc 2 = rc.temp_t5 ∧
      temperature_mapping rc 3 = rc.temp_t6 ∧
      temperature_mapping rc 4 = rc.temp_t7 ∧
      temperature_mapping rc 5 = rc.temp_t8 ∧
      temperature_mapping rc 6 = rc.temp_t9 ∧
      (∀ j : ℕ, 7 ≤ j → temperature_mapping rc j = none)) ∧
    (data ≠ [] → get_thermal_record_for_time data t = none →
      ∀ r ∈ discretize_concrete_core_into_rings d th data t n plan,
        r.temperature_celsius = none) := by
  refine ⟨?_, ?_, ?_, ?_, ?_⟩
  · intro h
    rw [discretize_concrete_core_into_rings, if_pos h]
  · intro hd
    rw [discretize_concrete_core_into_rings, if_neg hd]
    exact buildRings_length _ _ n 0 _
  · intro hd rc hrc j r h
    rw [get_thermal_record_for_time, if_neg hd] at hrc
    rw [discretize_concrete_core_into_rings, if_neg hd, hrc] at h
    have hres := (buildRings_get (some rc) _ n 0 _ j r h).2.2
    rw [Nat.zero_add] at hres
    exact hres
  · intro rc
    refine ⟨rfl, rfl, rfl, rfl, rfl, rfl, rfl, ?_⟩
    intro j hj
    obtain ⟨jj, rfl⟩ : ∃ jj, j = jj + 7 := ⟨j - 7, by omega⟩
    rfl
  · intro hd hnone r hr
    rw [get_thermal_record_for_time, if_neg hd] at hnone
    rw [discretize_concrete_core_into_rings, if_neg hd, hnone] at hr
    obtain ⟨j, hj⟩ := mem_exists_get? _ r hr
    exact (buildRings_get none _ n 0 _ j r hj).2.2

/-- C7 counterexample: for an empty thermal series the resolved snapshot is
absent, yet the discretizer returns no rings at all (zero of the requested
seven), contradicting the claim that the rings are still produced with
absent temperatures. -/
theorem C7_counterexample :
    get_thermal_record_for_time [] 0 = none ∧
    discretize_concrete_core_into_rings 355.6 9.5 [] 0 7 none = [] ∧
    (discretize_concrete_core_into_rings 355.6 9.5 [] 0 7 none).length ≠ 7 := by
  have h : discretize_concrete_core_into_rings 355.6 9.5 [] 0 7 none = [] := by
    rw [discretize_concrete_core_into_rings, if_pos rfl]
  refine ⟨?_, h, ?_⟩
  · rw [get_thermal_record_for_time, if_pos rfl]
  · rw [h]
    simp

/-- C7 witness: on a nonempty one record series the discretizer produces
exactly the requested seven rings, obtained by applying the claim theorem
at these concrete inputs. -/
theorem C7_witness :
    (discretize_concrete_core_into_rings 200 0
      [⟨some 0, none, none, none, none, none, none, none, none, none⟩]
      0 7 none).length = 7 :=
  (C7_ring_channel_mapping 200 0
    [⟨some 0, none, none, none, none, none, none, none, none, none⟩]
    0 7 none).2.1 (by simp)

/-! ## Claim C2 -/

/-- C2 (amended).  For the two coefficient tables: clamping to the first
value at or below 20, clamping to the last value at or above 1200, exactness
at every breakpoint, and linear interpolation strictly between adjacent
breakpoints.  For the strain table: 2.5 at or below 20 (also below the first
breakpoint), exactness at every breakpoint including the final row, whose
stored value is the absent marker, and linear interpolation strictly between
adjacent breakpoints whenever both adjacent values are defined.  The
amendment: the strain lookup returns no value for every temperature strictly
above 1100, not only at the final breakpoint 1200, so on the open interval
(1100, 1200) it does not return the interpolation of the adjacent values. -/
theorem C2_degradation_tables :
    (∀ T : ℚ, T ≤ 20 → steel_working_condition_coeff T = 1.00) ∧
    (∀ T : ℚ, 1200 ≤ T → steel_working_condition_coeff T = 0.0) ∧
    (∀ p ∈ steelTable, steel_working_condition_coeff p.1 = p.2) ∧
    (∀ (i : ℕ) (a b : ℚ × ℚ), steelTable.get? i = some a →
      steelTable.get? (i + 1) = some b → ∀ T : ℚ, a.1 < T → T < b.1 →
      steel_working_condition_coeff T =
        a.2 + (b.2 - a.2) * (T - a.1) / (b.1 - a.1)) ∧
    (∀ T : ℚ, T ≤ 20 → concrete_working_condition_coeff T = 1.00) ∧
    (∀ T : ℚ, 1200 ≤ T → concrete_working_condition_coeff T = 0.0) ∧
    (∀ p ∈ concreteTable, concrete_working_condition_coeff p.1 = p.2) ∧
    (∀ (i : ℕ) (a b : ℚ × ℚ), concreteTable.get? i = some a →
      concreteTable.get? (i + 1) = some b → ∀ T : ℚ, a.1 < T → T < b.1 →
      concrete_working_condition_coeff T =
        a.2 + (b.2 - a.2) * (T - a.1) / (b.1 - a.1)) ∧
    (∀ T : ℚ, T ≤ 20 → concrete_strain_by_temp T = some 2.5) ∧
    (∀ p ∈ strainTable, concrete_strain_by_temp p.1 = p.2) ∧
    (∀ T : ℚ, 1100 < T → concrete_strain_by_temp T = none) ∧
    (∀ (i : ℕ) (a b : ℚ × Option ℚ), strainTable.get? i = some a →
      strainTable.get? (i + 1) = some b → ∀ ea eb : ℚ, a.2 = some ea →
      b.2 = some eb → ∀ T : ℚ, a.1 < T → T < b.1 →
      concrete_strain_by_temp T =
        some (ea + (eb - ea) * (T - a.1) / (b.1 - a.1))) := by
  refine ⟨?_, ?_, ?_, ?_, ?_, ?_, ?_, ?_, ?_, ?_, ?_, ?_⟩
  · intro T h
    rw [steel_working_condition_coeff]
    exact tableLookup_le_first T (20, 1.00) steelTableTail h
  · intro T h
    rw [steel_working_condition_coeff]
    have hle : (steelTableTail.getLastD (20, 1.00)).1 ≤ T := by
      rw [steelTable_last]; exact h
    have h2 := tableLookup_ge_last T (20, 1.00) steelTableTail
      steelTable_sorted hle
    rw [steelTable_last] at h2
    exact h2
  · intro p hp
    rw [steel_working_condition_coeff]
    exact tableLookup_mem (20, 1.00) steelTableTail steelTable_sorted p hp
  · intro i a b ha hb T haT hTb
    rw [steel_working_condition_coeff]
    exact tableLookup_between T a b haT hTb (20, 1.00) steelTableTail
      steelTable_sorted i ha hb
  · intro T h
    rw [concrete_working_condition_coeff]
    exact tableLookup_le_first T (20, 1.00) concreteTableTail h
  · intro T h
    rw [concrete_working_condition_coeff]
    have hle : (concreteTableTail.getLastD (20, 1.00)).1 ≤ T := by
      rw [concreteTable_last]; exact h
    have h2 := tableLookup_ge_last T (20, 1.00) concreteTableTail
      concreteTable_sorted hle
    rw [concreteTable_last] at h2
    exact h2
  · intro p hp
    rw [concrete_working_condition_coeff]
    exact tableLookup_mem (20, 1.00) concreteTableTail concreteTable_sorted p hp
  · intro i a b ha hb T haT hTb
    rw [concrete_working_condition_coeff]
    exact tableLookup_between T a b haT hTb (20, 1.00) concreteTableTail
      concreteTable_sorted i ha hb
  · exact strain_le_20
  · intro p hp
    rcases List.mem_cons.mp hp with rfl | hp'
    · exact strain_le_20 _ (le_refl _)
    · rcases hval : p.2 with _ | ep
      · simp only [strainTableTail, List.mem_cons, List.mem_nil_iff,
          or_false] at hp'
        rcases hp' with rfl | rfl | rfl | rfl | rfl | rfl | rfl | rfl | rfl | rfl | rfl | rfl
        all_goals first
          | exact absurd hval (Option.some_ne_none _)
          | exact strain_none_above_1100 _ (by norm_num)
      · have h20p : ((20 : ℚ), some (2.5 : ℚ)).1 < p.1 :=
          (List.pairwise_cons.mp strainTable_sorted).1 p hp'
        rw [concrete_strain_by_temp, if_neg (not_lt.mpr (le_of_lt h20p))]
        exact strainScan_mem strainTableTail 20 2.5 strainTable_sorted
          strainTableTail_defined p hp' ep hval
  · exact strain_none_above_1100
  · intro i a b ha hb ea eb hea heb T haT hTb
    have hamem : a ∈ strainTable := List.get?_mem ha
    have h20a : ((20 : ℚ), some (2.5 : ℚ)).1 ≤ a.1 := by
      rcases List.mem_cons.mp hamem with rfl | h'
      · exact le_refl _
      · exact ((List.pairwise_cons.mp strainTable_sorted).1 a h').le
    have h20 : ¬ T < 20 := not_lt.mpr (le_trans h20a haT.le)
    rw [concrete_strain_by_temp, if_neg h20]
    exact strainScan_between T a b ea eb hea heb haT hTb strainTableTail 20 2.5
      i strainTable_sorted strainTableTail_defined ha hb

/-- C2 counterexample.  The rows at indices 11 and 12 of the strain table
are the adjacent breakpoints 1100 and 1200; the temperature 1150 lies
strictly between them, yet the lookup returns no value there instead of the
linear interpolation of the adjacent table values that the claim asserts for
every temperature strictly between breakpoints. -/
theorem C2_strain_counterexample :
    strainTable.get? 11 = some (1100, some 25.0) ∧
    strainTable.get? 12 = some (1200, none) ∧
    (1100 : ℚ) < 1150 ∧ (1150 : ℚ) < 1200 ∧
    concrete_strain_by_temp 1150 = none :=
  ⟨rfl, rfl, by norm_num, by norm_num,
    strain_none_above_1100 1150 (by norm_num)⟩

/-- C2 witness: the steel coefficient between the breakpoints 400 and 500 is
the linear interpolation of 0.70 and 0.60, obtained from the claim theorem
at concrete inputs. -/
theorem C2_witness :
    steelTable.get? 4 = some (400, 0.70) ∧
    steelTable.get? 5 = some (500, 0.60) ∧
    (400 : ℚ) < 450 ∧ (450 : ℚ) < 500 ∧
    steel_working_condition_coeff 450 =
      0.70 + (0.60 - 0.70) * (450 - 400) / (500 - 400) :=
  ⟨rfl, rfl, by norm_num, by norm_num,
    C2_degradation_tables.2.2.2.1 4 (400, 0.70) (500, 0.60) rfl rfl 450
      (by norm_num) (by norm_num)⟩

/-! ## Claim C4 -/

/-- C4.  The buckling reduction coefficient is 1.0 at slenderness 0.0 and
0.54 at slenderness 1.0 exactly; it is 0.1 exactly at or above 3.0; it is
clamped to 1.0 below 0.0; strictly between breakpoints it is the linear
interpolation of the table; its value always lies in the closed interval
from 0.1 to 1.0; and it is monotonically non increasing in the slenderness. -/
theorem C4_reduction_coeff :
    get_reduction_coeff 0.0 = 1.0 ∧
    get_reduction_coeff 1.0 = 0.54 ∧
    (∀ s : ℝ, 3 ≤ s → get_reduction_coeff s = 0.1) ∧
    (∀ s : ℝ, s < 0 → get_reduction_coeff s = 1.0) ∧
    (∀ (i : ℕ) (a b : ℝ × ℝ), phiTable.get? i = some a →
      phiTable.get? (i + 1) = some b → ∀ s : ℝ, a.1 < s → s < b.1 →
      get_reduction_coeff s =
        a.2 + (b.2 - a.2) * (s - a.1) / (b.1 - a.1)) ∧
    (∀ s : ℝ, 0.1 ≤ get_reduction_coeff s ∧ get_reduction_coeff s ≤ 1.0) ∧
    (∀ s1 s2 : ℝ, s1 ≤ s2 → get_reduction_coeff s2 ≤ get_reduction_coeff s1) := by
  refine ⟨?_, ?_, ?_, ?_, ?_, ?_, ?_⟩
  · rw [get_reduction_coeff]
    exact tableLookup_le_first 0.0 (0.0, 1.0) phiTableTail (by norm_num)
  · rw [get_reduction_coeff]
    exact tableLookup_mem (0.0, 1.0) phiTableTail phiTable_sorted (1.0, 0.54)
      (by simp [phiTableTail])
  · intro s h
    rw [get_reduction_coeff]
    have h3 : ((3.0 : ℝ)) ≤ s := by norm_num; linarith
    have hle : (phiTableTail.getLastD (0.0, 1.0)).1 ≤ s := by
      rw [phiTable_last]; exact h3
    have h2 := tableLookup_ge_last s (0.0, 1.0) phiTableTail phiTable_sorted hle
    rw [phiTable_last] at h2
    exact h2
  · intro s h
    rw [get_reduction_coeff]
    have h0 : s ≤ ((0.0 : ℝ), (1.0 : ℝ)).1 := by norm_num; linarith
    exact tableLookup_le_first s (0.0, 1.0) phiTableTail h0
  · intro i a b ha hb s haT hTb
    rw [get_reduction_coeff]
    exact tableLookup_between s a b haT hTb (0.0, 1.0) phiTableTail
      phiTable_sorted i ha hb
  · intro s
    have h := tableLookup_bounds s (0.0, 1.0) phiTableTail phiTable_sorted
      phiTable_noninc
    rw [phiTable_last] at h
    rw [get_reduction_coeff]
    exact ⟨h.1, h.2⟩
  · intro s1 s2 h
    simp only [get_reduction_coeff]
    exact tableLookup_mono s1 s2 h (0.0, 1.0) phiTableTail phiTable_sorted
      phiTable_noninc

/-- C4 witness: the reduction coefficient at the concrete slenderness 5 is
0.1, and at 0.9 it is the interpolation of the breakpoints 0.8 and 1.0,
both obtained from the claim theorem at concrete inputs. -/
theorem C4_witness :
    (3 : ℝ) ≤ 5 ∧ get_reduction_coeff 5 = 0.1 ∧
    phiTable.get? 4 = some (0.8, 0.6) ∧ phiTable.get? 5 = some (1.0, 0.54) ∧
    (0.8 : ℝ) < 0.9 ∧ (0.9 : ℝ) < 1.0 ∧
    get_reduction_coeff 0.9 = 0.6 + (0.54 - 0.6) * (0.9 - 0.8) / (1.0 - 0.8) :=
  ⟨by norm_num, C4_reduction_coeff.2.2.1 5 (by norm_num), rfl, rfl,
    by norm_num, by norm_num,
    C4_reduction_coeff.2.2.2.2.1 4 (0.8, 0.6) (1.0, 0.54) rfl rfl 0.9
      (by norm_num) (by norm_num)⟩

end FireColumn
